import Mathlib

/-!
# dllapi: loading shared libraries by logical name

A shallow embedding of `src/dllapi.cpp` and the properties of its
load / unload / resolve engine.

Conventions of the embedding.

* `std::string` is `String`; one `Char` stands for one `char`.  Only
  equality, concatenation, `size`, `substr`, `rfind` and the ordering of
  `std::map` keys are used, and they are defined here on the list of
  characters.
* `std::list<std::string>` is `List String`.
* `void*` and `DllObject*` are `Nat`, `0` being the null pointer.
* The platform loader is a parameter: an arbitrary deterministic state
  machine (`Loader σ`).  A native call receives the contents of the string
  whose buffer the code passes (`file.c_str()`, `symb.c_str()`), and every
  native call is appended to a trace, so that "no native call" is a
  statement about the trace.
* The three `#if` configurations are the values of `Platform`.
* A result of type `Option` is `none` when the C++ code has no defined
  result: an exception leaves the function (`std::out_of_range` of
  `substr`), a dangling pointer / past-the-end iterator is dereferenced, or
  a null `char*` is assigned to a `std::string`.
* `DBG(...)` only prints and is left out.
-/

namespace dllapi

/-! ## Strings -/

/-- Result of `s.substr(pos, n)`; `none` is the `std::out_of_range` thrown for `pos > s.size()`. -/
def substr (s : String) (pos n : Nat) : Option String :=
  if pos > s.length then none else some ⟨(s.data.drop pos).take n⟩

/-- The loop of `std::string::rfind`: the positions `pos, pos - 1, ..., 0` are compared in turn. -/
def rfindFrom (s pat : List Char) : Nat → Option Nat
  | 0 => if pat.isPrefixOf s then some 0 else none
  | pos + 1 => if pat.isPrefixOf (s.drop (pos + 1)) then some (pos + 1) else rfindFrom s pat pos

/-- Result of `s.rfind(pat)`: the last position at which `pat` occurs in `s`; `none` is `npos`. -/
def rfind (s pat : String) : Option Nat :=
  if pat.length ≤ s.length then rfindFrom s.data pat.data (s.length - pat.length) else none

/-- Conversion `std::string(s.c_str())`: a C string ends at the first NUL character. -/
def c_str (s : String) : String :=
  ⟨s.data.takeWhile (fun c => c ≠ Char.ofNat 0)⟩

/-- Ordering `operator<` of `std::string`: lexicographic on the character codes. -/
def strLess : List Char → List Char → Bool
  | [], [] => false
  | [], _ :: _ => true
  | _ :: _, [] => false
  | a :: as, b :: bs =>
    if a.toNat < b.toNat then true
    else if b.toNat < a.toNat then false
    else strLess as bs

/-! ## Platform configuration -/

/-- The three build configurations selected by `Q_OS_WIN` / `Q_OS_MAC` / neither. -/
inductive Platform where
  | Q_OS_WIN
  | Q_OS_MAC
  | Q_OS_OTHER
deriving DecidableEq, Repr

/-- Constant `kDllPrefix`. -/
def kDllPrefix : Platform → String
  | .Q_OS_WIN => ""
  | .Q_OS_MAC => "lib"
  | .Q_OS_OTHER => "lib"

/-- Constant `kDllSuffix`. -/
def kDllSuffix : Platform → String
  | .Q_OS_WIN => ".dll"
  | .Q_OS_MAC => ".dylib"
  | .Q_OS_OTHER => ".so"

/-! ## The platform loader -/

/-- The native calls of the code, as a deterministic state machine over `σ`.
`dlopen`, `dlsym` and `LoadLibrary`, `GetProcAddress` return `0` for a null
result; `GetLastErrorString` is the `FormatMessage` decoding of an error code.
The text conversions of `ts_string.h` around the Windows calls belong to the
calls. `dlerror` is the text that `dlerror()` returns when an error is pending,
as it is after a `dlopen` that returned null and after a `dlclose` that
returned non-zero. `dlerrorIsNull` says whether `dlerror()` returns a null
pointer instead: no error is pending, as it can be after a `dlsym` that returned
null for a symbol whose value is null. `FreeLibrary` returns whether the module
was released. -/
structure Loader (σ : Type) where
  dlopen : σ → String → Nat × σ
  dlerror : σ → String × σ
  dlerrorIsNull : σ → Bool
  dlclose : σ → Nat → Int × σ
  dlsym : σ → Nat → String → Nat × σ
  LoadLibrary : σ → String → Nat × σ
  GetLastError : σ → Nat × σ
  GetLastErrorString : σ → Nat → String × σ
  FreeLibrary : σ → Nat → Bool × σ
  GetProcAddress : σ → Nat → String → Nat × σ

/-- One native call together with its result. -/
inductive Call where
  | dlopen (path : String) (result : Nat)
  | dlerror (text : String)
  | dlclose (handle : Nat) (rc : Int)
  | dlsym (handle : Nat) (symb : String) (result : Nat)
  | LoadLibrary (path : String) (result : Nat)
  | GetLastError (code : Nat)
  | GetLastErrorString (code : Nat) (text : String)
  | FreeLibrary (handle : Nat) (released : Bool)
  | GetProcAddress (handle : Nat) (symb : String) (result : Nat)
deriving DecidableEq, Repr

/-- State of the platform loader and the native calls made so far, oldest first. -/
structure World (σ : Type) where
  st : σ
  trace : List Call

namespace World

variable {σ : Type}

def dlopen (L : Loader σ) (w : World σ) (path : String) : Nat × World σ :=
  let r := L.dlopen w.st path
  (r.1, ⟨r.2, w.trace ++ [Call.dlopen path r.1]⟩)

def dlerror (L : Loader σ) (w : World σ) : String × World σ :=
  let r := L.dlerror w.st
  (r.1, ⟨r.2, w.trace ++ [Call.dlerror r.1]⟩)

def dlclose (L : Loader σ) (w : World σ) (handle : Nat) : Int × World σ :=
  let r := L.dlclose w.st handle
  (r.1, ⟨r.2, w.trace ++ [Call.dlclose handle r.1]⟩)

def dlsym (L : Loader σ) (w : World σ) (handle : Nat) (symb : String) : Nat × World σ :=
  let r := L.dlsym w.st handle symb
  (r.1, ⟨r.2, w.trace ++ [Call.dlsym handle symb r.1]⟩)

def LoadLibrary (L : Loader σ) (w : World σ) (path : String) : Nat × World σ :=
  let r := L.LoadLibrary w.st path
  (r.1, ⟨r.2, w.trace ++ [Call.LoadLibrary path r.1]⟩)

def GetLastError (L : Loader σ) (w : World σ) : Nat × World σ :=
  let r := L.GetLastError w.st
  (r.1, ⟨r.2, w.trace ++ [Call.GetLastError r.1]⟩)

def GetLastErrorString (L : Loader σ) (w : World σ) (code : Nat) : String × World σ :=
  let r := L.GetLastErrorString w.st code
  (r.1, ⟨r.2, w.trace ++ [Call.GetLastErrorString code r.1]⟩)

def FreeLibrary (L : Loader σ) (w : World σ) (handle : Nat) : Bool × World σ :=
  let r := L.FreeLibrary w.st handle
  (r.1, ⟨r.2, w.trace ++ [Call.FreeLibrary handle r.1]⟩)

def GetProcAddress (L : Loader σ) (w : World σ) (handle : Nat) (symb : String) : Nat × World σ :=
  let r := L.GetProcAddress w.st handle symb
  (r.1, ⟨r.2, w.trace ++ [Call.GetProcAddress handle symb r.1]⟩)

/-- The native open of the configuration: `LoadLibrary(file)` under `Q_OS_WIN`, otherwise
`dlopen(file, RTLD_NOW|RTLD_LOCAL)`. -/
def openLibrary (P : Platform) (L : Loader σ) (w : World σ) (path : String) : Nat × World σ :=
  match P with
  | .Q_OS_WIN => w.LoadLibrary L path
  | _ => w.dlopen L path

/-- The error text of the configuration: `GetLastErrorString(GetLastError())` under `Q_OS_WIN`,
otherwise `dlerror()`. -/
def lastErrorText (P : Platform) (L : Loader σ) (w : World σ) : String × World σ :=
  match P with
  | .Q_OS_WIN =>
    let c := w.GetLastError L
    c.2.GetLastErrorString L c.1
  | _ => w.dlerror L

end World

/-! ## DllObject -/

/-- The members of `DllObject` that `dllapi.cpp` uses. -/
structure DllObject where
  file : String
  handle : Nat
  error : String
deriving DecidableEq, Repr

/-- Modelled from the spec: the constructor of `DllObject` is declared in `dllapi_p.h`, which
is not among the sources; a new handle object has a null native handle ("null when not
loaded"), and no file name or error text yet. -/
def DllObject.new : DllObject := ⟨"", 0, ""⟩

namespace DllObject

variable {σ : Type}

/-- Method `DllObject::setFileName` (lines 85-104). -/
def setFileName (P : Platform) (name : String) (d : DllObject) : Option DllObject :=
  let d := { d with file := name }
  if name.length < (kDllSuffix P).length then
    some { d with file := d.file ++ kDllSuffix P }
  else
    match rfind name (kDllSuffix P) with
    | none => some { d with file := d.file ++ kDllSuffix P }
    | some suf_pos =>
      if suf_pos + (kDllSuffix P).length > name.length then
        match substr name (suf_pos + (kDllSuffix P).length) 1 with
        | none => none
        | some next =>
          if next ≠ "." then some { d with file := d.file ++ kDllSuffix P }
          else some d
      else some d

/-- Lines 117-128 of `_load`: `handle` is the result of the native open, and `error` is the
error text of the platform when the handle is null. -/
def nativeOpen (P : Platform) (L : Loader σ) (d : DllObject) (w : World σ) : DllObject × World σ :=
  let r := w.openLibrary P L d.file
  let d := { d with handle := r.1 }
  if d.handle = 0 then
    let m := r.2.lastErrorText P L
    ({ d with error := m.1 }, m.2)
  else (d, r.2)

/-- Body of `DllObject::_load` (lines 115-141); `again` is the recursive call `_load(false)`. -/
def _loadBody (P : Platform) (L : Loader σ)
    (again : DllObject → World σ → Bool × DllObject × World σ)
    ( tryprefix : Bool) (d : DllObject) (w : World σ) : Bool × DllObject × World σ :=
  let r := nativeOpen P L d w
  let d := r.1
  let w := r.2
  if d.handle = 0 then
    if ! tryprefix || (kDllPrefix P).length = 0
        || substr d.file 0 (kDllPrefix P).length = some (kDllPrefix P) then
      (false, d, w)
    else
      again { d with file := kDllPrefix P ++ d.file } w
  else
    (true, { d with error := "" }, w)

/-- Method `DllObject::_load`. The call `_load(false)` never reaches the recursive call, so
the recursion has depth at most two. -/
def _load (P : Platform) (L : Loader σ) ( tryprefix : Bool) (d : DllObject) (w : World σ) :
    Bool × DllObject × World σ :=
  _loadBody P L (_loadBody P L (fun d w => (false, d, w)) false) tryprefix d w

/-- Method `DllObject::load` (lines 106-113). -/
def load (P : Platform) (L : Loader σ) (d : DllObject) (w : World σ) :
    Bool × DllObject × World σ :=
  match P with
  | .Q_OS_WIN => _load P L false d w
  | _ => _load P L true d w

/-- Method `DllObject::unload` (lines 143-168). -/
def unload (P : Platform) (L : Loader σ) (d : DllObject) (w : World σ) :
    Bool × DllObject × World σ :=
  match P with
  | .Q_OS_WIN =>
    let w := if d.handle ≠ 0 then (w.FreeLibrary L d.handle).2 else w
    let e := w.GetLastError L
    if e.1 = 0 then
      let d := { d with error := "", handle := 0 }
      (d.handle = 0, d, e.2)
    else
      let m := e.2.GetLastErrorString L e.1
      let d := { d with error := m.1 }
      (d.handle = 0, d, m.2)
  | _ =>
    if d.handle ≠ 0 then
      let r := w.dlclose L d.handle
      if r.1 ≠ 0 then
        let m := r.2.dlerror L
        let d := { d with error := m.1 }
        (d.handle = 0, d, m.2)
      else
        let d := { d with error := "", handle := 0 }
        (d.handle = 0, d, r.2)
    else (d.handle = 0, d, w)

/-- Lines 177-188 of `_reslove`: the result of the native lookup, with `error` set to the error
text of the platform when the result is null. Outside `Q_OS_WIN` the result of `dlerror()` is
assigned to `error` as it comes; when it is a null pointer (`dlsym` returned null without an
error) the assignment of line 187 has no defined result. -/
def nativeSym (P : Platform) (L : Loader σ) (symb : String) (d : DllObject) (w : World σ) :
    Option (Nat × DllObject × World σ) :=
  match P with
  | .Q_OS_WIN =>
    let r := w.GetProcAddress L d.handle symb
    if r.1 = 0 then
      let c := r.2.GetLastError L
      let m := c.2.GetLastErrorString L c.1
      some (r.1, { d with error := m.1 }, m.2)
    else some (r.1, d, r.2)
  | _ =>
    let r := w.dlsym L d.handle symb
    if r.1 = 0 then
      if L.dlerrorIsNull r.2.st then none
      else
        let m := r.2.dlerror L
        some (r.1, { d with error := m.1 }, m.2)
    else some (r.1, d, r.2)

/-- Body of `DllObject::_reslove` (lines 175-196); `retry` is the recursive call
`_reslove("_" + symb, false)`. -/
def _resloveBody (P : Platform) (L : Loader σ)
    (retry : String → DllObject → World σ → Option (Nat × DllObject × World σ))
    (symb : String) (again : Bool) (d : DllObject) (w : World σ) :
    Option (Nat × DllObject × World σ) :=
  match nativeSym P L symb d w with
  | none => none
  | some r =>
    let symbol := r.1
    let d := r.2.1
    let w := r.2.2
    if symbol = 0 && again then
      retry ("_" ++ symb) d w
    else if symbol ≠ 0 then
      some (symbol, { d with error := "" }, w)
    else
      some (symbol, d, w)

/-- Method `DllObject::_reslove`. The call with `again = false` never recurses. -/
def _reslove (P : Platform) (L : Loader σ) (symb : String) (again : Bool) (d : DllObject)
    (w : World σ) : Option (Nat × DllObject × World σ) :=
  _resloveBody P L (fun s d w => _resloveBody P L (fun _ d w => some (0, d, w)) s false d w)
    symb again d w

end DllObject

/-- The file name that `setFileName(name)` stores in a handle object. -/
def storedFileName (P : Platform) (name : String) : String :=
  match DllObject.new.setFileName P name with
  | some d => d.file
  | none => name

/-! ## std::map and the heap -/

/-- A `std::map<std::string, V>`: the entries in key order. -/
abbrev StdMap (V : Type) := List (String × V)

namespace StdMap

variable {V : Type}

/-- Lookup `m.find(k)`: the mapped value, `none` for `end()`. -/
def find : StdMap V → String → Option V
  | [], _ => none
  | (k', v) :: m, k => if k' = k then some v else find m k

/-- Assignment `m[k] = v`: replaces the value of `k`, or inserts a new entry at its place in key order. -/
def set (k : String) (v : V) : StdMap V → StdMap V
  | [] => [(k, v)]
  | (k', v') :: m =>
    if k' = k then (k, v) :: m
    else if strLess k.data k'.data then (k, v) :: (k', v') :: m
    else (k', v') :: set k v m

/-- Access `m[k]`: the value of `k`, and the map, to which `k` is added with the default value
`dflt` when it was absent. -/
def index (dflt : V) (m : StdMap V) (k : String) : V × StdMap V :=
  match find m k with
  | some v => (v, m)
  | none => (dflt, set k dflt m)

/-- Removal `m.erase(k)` by key. -/
def erase (m : StdMap V) (k : String) : StdMap V :=
  m.filter (fun e => e.1 ≠ k)

/-- Search `std::find_if(m.begin(), m.end(), p)`: the first entry in key order that satisfies `p`;
`none` for `end()`. -/
def find_if (m : StdMap V) (p : String × V → Bool) : Option (String × V) :=
  List.find? p m

end StdMap

/-- The `DllObject`s created by `new` and not yet deleted, by address. -/
abbrev Heap := List (Nat × DllObject)

namespace Heap

/-- The object at address `p`; `none` when no live object is there. -/
def get : Heap → Nat → Option DllObject
  | [], _ => none
  | (q, d) :: h, p => if q = p then some d else get h p

/-- Writes the object at address `p`. -/
def put (p : Nat) (d : DllObject) : Heap → Heap
  | [] => []
  | (q, d') :: h => if q = p then (q, d) :: put p d h else (q, d') :: put p d h

/-- Statement `delete p`. -/
def free (h : Heap) (p : Nat) : Heap :=
  h.filter (fun e => e.1 ≠ p)

/-- Address returned by `new`: non-null and different from the address of every live object. -/
def fresh (h : Heap) : Nat :=
  (h.map Prod.fst).foldr max 0 + 1

end Heap

/-! ## The registries and the entry points -/

/-- The static variables `sLibDirs`, `sLibNamesMap`, `sDllMap`, the live `DllObject`s and the
platform loader. -/
structure State (σ : Type) where
  sLibDirs : List String
  sLibNamesMap : StdMap (List String)
  sDllMap : StdMap Nat
  heap : Heap
  world : World σ

variable {σ : Type}

/-- State at program start: empty registries, no handle object, no native call made. -/
def State.init (st : σ) : State σ :=
  ⟨[], [], [], [], ⟨st, []⟩⟩

/-- Function `library` (lines 348-354). -/
def library (dllname : String) (s : State σ) : Nat :=
  match StdMap.find s.sDllMap dllname with
  | none => 0
  | some dll => dll

/-- The `for` loop of `load` (lines 308-314) on the object `dll`; the flag is `false` when the
loop ends with `it == libnames.end()`. -/
def loadLoop (P : Platform) (L : Loader σ) :
    List String → DllObject → World σ → Option (Bool × DllObject × World σ)
  | [], dll, w => some (false, dll, w)
  | name :: rest, dll, w =>
    match dll.setFileName P (c_str name) with
    | none => none
    | some dll =>
      let r := dll.load P L w
      if r.1 then some (true, r.2.1, r.2.2)
      else loadLoop P L rest r.2.1 r.2.2

/-- Function `load` (lines 297-323). The object made by `new` is entered into the heap when it
is kept; when no name loads it is deleted again. -/
def load (P : Platform) (L : Loader σ) (dllname : String) (s : State σ) :
    Option (Bool × State σ) :=
  if library dllname s ≠ 0 then some (true, s)
  else
    let r := StdMap.index [] s.sLibNamesMap dllname
    let libnames := if r.1.isEmpty then r.1 ++ [dllname] else r.1
    let dll := Heap.fresh s.heap
    match loadLoop P L libnames DllObject.new s.world with
    | none => none
    | some (found, obj, w) =>
      if !found then
        some (false, { s with sLibNamesMap := r.2, world := w })
      else
        some (true, { s with sLibNamesMap := r.2, sDllMap := StdMap.set dllname dll s.sDllMap,
                             heap := (dll, obj) :: s.heap, world := w })

/-- Function `testLoad` (lines 286-291). -/
def testLoad (P : Platform) (L : Loader σ) (dllname : String) (s : State σ) :
    Option (Bool × State σ) :=
  if library dllname s ≠ 0 then some (true, s)
  else load P L dllname s

/-- Function `unload` (lines 332-346). -/
def unload (P : Platform) (L : Loader σ) (dllname : String) (s : State σ) :
    Option (Bool × State σ) :=
  let dll := library dllname s
  if dll = 0 then some (true, s)
  else
    match Heap.get s.heap dll with
    | none => none
    | some obj =>
      let r := obj.unload P L s.world
      if !r.1 then
        some (false, { s with heap := Heap.put dll r.2.1 s.heap, world := r.2.2 })
      else
        match StdMap.find_if s.sDllMap (fun e => e.2 = dll) with
        | none => none
        | some e =>
          some (true, { s with sDllMap := StdMap.erase s.sDllMap e.1,
                               heap := Heap.free s.heap dll, world := r.2.2 })

/-- Function `getLibraryNames` (lines 281-284): `sLibNamesMap[lib]`, which also enters `lib`
with an empty list when it has no entry. -/
def getLibraryNames (lib : String) (s : State σ) : List String × State σ :=
  let r := StdMap.index [] s.sLibNamesMap lib
  (r.1, { s with sLibNamesMap := r.2 })

/-! ## The search paths and the library names -/

/-- Function `setSearchPaths` (lines 201-204). -/
def setSearchPaths (paths : List String) (s : State σ) : State σ :=
  { s with sLibDirs := paths }

/-- The loop of `addSearchPaths` (lines 208-213) and of `addLibraryNames` (lines 264-269) on
the list `l`: a name that `std::find` does not find in `l` is pushed to the back of `l`. -/
def pushBackMissing : List String → List String → List String
  | l, [] => l
  | l, name :: rest =>
    if name ∉ l then pushBackMissing (l ++ [name]) rest else pushBackMissing l rest

/-- Function `addSearchPaths` (lines 206-214). -/
def addSearchPaths (paths : List String) (s : State σ) : State σ :=
  { s with sLibDirs := pushBackMissing s.sLibDirs paths }

/-- The loop of `std::remove_if` after `std::find_if` has found the first element that
satisfies `p`. `kept` are the elements before the iterator `first`, `x :: stale` the elements
from `first` up to the iterator `i`, and the last argument the elements from `i` on. An
element `y` that does not satisfy `p` is assigned to `*first`, and `first` moves on; the
assignment leaves `leftover x y` in its source, which is `y` for the copy assignment of C++03
and the moved-from value of the library for the move assignment of later standards. No element
is erased. -/
def remove_if_loop (leftover : String → String → String) (p : String → Bool) :
    List String → String → List String → List String → List String
  | kept, x, stale, [] => kept ++ x :: stale
  | kept, x, stale, y :: rest =>
    if p y then remove_if_loop leftover p kept x (stale ++ [y]) rest
    else
      match stale with
      | [] => remove_if_loop leftover p (kept ++ [y]) (leftover x y) [] rest
      | z :: stale => remove_if_loop leftover p (kept ++ [y]) z (stale ++ [leftover x y]) rest

/-- The list after `std::remove_if(l.begin(), l.end(), p)`; the iterator that the algorithm
returns is not part of the result, since the code drops it. -/
def remove_if (leftover : String → String → String) (p : String → Bool) (l : List String) :
    List String :=
  match l.dropWhile (fun e => !p e) with
  | [] => l
  | x :: rest => remove_if_loop leftover p (l.takeWhile (fun e => !p e)) x [] rest

/-- The loop of `removeSearchPaths` (lines 218-221) and of `removeLibraryNames`
(lines 275-278) on the list `l`: one `std::remove_if` with the predicate
`std::bind2nd(std::equal_to<std::string>(), name)` for every name. -/
def removeEach (leftover : String → String → String) : List String → List String → List String
  | l, [] => l
  | l, name :: rest => removeEach leftover (remove_if leftover (fun e => e = name) l) rest

/-- Function `removeSearchPaths` (lines 216-222). -/
def removeSearchPaths (leftover : String → String → String) (paths : List String)
    (s : State σ) : State σ :=
  { s with sLibDirs := removeEach leftover s.sLibDirs paths }

/-- Function `getSearchPaths` (lines 224-227). -/
def getSearchPaths (s : State σ) : List String :=
  s.sLibDirs

/-- Function `setLibraryNames` (lines 231-234). -/
def setLibraryNames (lib : String) (names : List String) (s : State σ) : State σ :=
  { s with sLibNamesMap := StdMap.set lib names s.sLibNamesMap }

/-- Function `addLibraryNames` on a list (lines 259-270); the two overloads of lines 236-257
collect their arguments in a list and call this one. `libnames` is a reference into the map,
so the new list is written back to the entry of `lib`. -/
def addLibraryNames (lib : String) (names : List String) (s : State σ) : State σ :=
  let r := StdMap.index [] s.sLibNamesMap lib
  let libnames := if r.1.isEmpty then r.1 ++ [lib] else r.1
  { s with sLibNamesMap := StdMap.set lib (pushBackMissing libnames names) r.2 }

/-- Function `removeLibraryNames` (lines 272-279). -/
def removeLibraryNames (leftover : String → String → String) (lib : String)
    (names : List String) (s : State σ) : State σ :=
  let r := StdMap.index [] s.sLibNamesMap lib
  { s with sLibNamesMap := StdMap.set lib (removeEach leftover r.1 names) r.2 }

/-- The copy assignment of C++03 leaves its source as it is. -/
def copyAssigned (_target source : String) : String :=
  source

/-- A move assignment that leaves an empty string in its source. -/
def moveAssigned (_target _source : String) : String :=
  ""

/-! ## Vocabulary of the statements -/

/-- The path and the result of a native open (`dlopen` or `LoadLibrary`); `none` for every
other native call. -/
def Call.opened : Call → Option (String × Nat)
  | .dlopen path result => some (path, result)
  | .LoadLibrary path result => some (path, result)
  | _ => none

/-- The symbol and the result of a native lookup (`dlsym` or `GetProcAddress`); `none` for
every other native call. -/
def Call.lookedUp : Call → Option (String × Nat)
  | .dlsym _ symb result => some (symb, result)
  | .GetProcAddress _ symb result => some (symb, result)
  | _ => none

/-- The paths `DllObject::load` may pass to the native open for the stored file name `file`:
the name itself, and the name with `kDllPrefix` prepended unless it starts with it already
(under `Q_OS_WIN` the prefix is empty and there is one path). -/
def attemptPaths (P : Platform) (file : String) : List String :=
  if (kDllPrefix P).data <+: file.data then [file] else [file, kDllPrefix P ++ file]

/-- The paths of a whole candidate list, in the order in which `load` may try them. -/
def attemptList (P : Platform) : List String → List String
  | [] => []
  | name :: rest => attemptPaths P (storedFileName P (c_str name)) ++ attemptList P rest

/-- The candidate names of `dllname`: its list in `sLibNamesMap`, or `dllname` alone when
that list is empty. -/
def candidateNames (dllname : String) (s : State σ) : List String :=
  if (getLibraryNames dllname s).1 = [] then [dllname] else (getLibraryNames dllname s).1

/-- No two entries of `sDllMap` hold the same pointer, and every pointer in it is non-null and
points to a live handle object. `load` enters only pointers fresh from `new`, and `unload`
deletes an object only together with its entry. -/
def State.WF (s : State σ) : Prop :=
  (s.sDllMap.map Prod.snd).Nodup ∧
    ∀ e ∈ s.sDllMap, e.2 ≠ 0 ∧ (Heap.get s.heap e.2).isSome = true

/-- The states the program can be in: the state at program start, and the states that `load`,
`testLoad` and `unload` lead to. Two further steps stand for everything else a caller can do:
`configure` for the functions on the search paths and the library names (any new contents of
`sLibDirs` and `sLibNamesMap`), and `useHandle` for calls on a handle object obtained from
`library` (any new contents of a live handle object, any native calls). -/
inductive Reachable (P : Platform) (L : Loader σ) : State σ → Prop where
  | init (st : σ) : Reachable P L (State.init st)
  | load {s s' : State σ} (dllname : String) (r : Bool) :
      Reachable P L s → load P L dllname s = some (r, s') → Reachable P L s'
  | testLoad {s s' : State σ} (dllname : String) (r : Bool) :
      Reachable P L s → testLoad P L dllname s = some (r, s') → Reachable P L s'
  | unload {s s' : State σ} (dllname : String) (r : Bool) :
      Reachable P L s → unload P L dllname s = some (r, s') → Reachable P L s'
  | configure {s : State σ} (dirs : List String) (names : StdMap (List String)) :
      Reachable P L s → Reachable P L { s with sLibDirs := dirs, sLibNamesMap := names }
  | useHandle {s : State σ} (p : Nat) (d d' : DllObject) (w : World σ) :
      Reachable P L s → Heap.get s.heap p = some d →
      Reachable P L { s with heap := Heap.put p d' s.heap, world := w }

/-- The entries of `l` in their order, each one only where it occurs first. -/
def firstOccurrences : List String → List String
  | [] => []
  | x :: rest => x :: (firstOccurrences rest).filter (fun y => y ≠ x)

/-- The states of the search paths reached from an empty `sLibDirs` by calls of
`setSearchPaths` with a duplicate-free argument and calls of `addSearchPaths`. -/
inductive PathsReachable : State σ → Prop where
  | start (s : State σ) : s.sLibDirs = [] → PathsReachable s
  | set {s : State σ} (paths : List String) :
      paths.Nodup → PathsReachable s → PathsReachable (setSearchPaths paths s)
  | add {s : State σ} (paths : List String) :
      PathsReachable s → PathsReachable (addSearchPaths paths s)

/-- Every pointer in `sDllMap` points to a handle object whose native handle is not null. -/
def State.AllOpen (s : State σ) : Prop :=
  ∀ e ∈ s.sDllMap, ∃ obj, Heap.get s.heap e.2 = some obj ∧ obj.handle ≠ 0

/-- The states reached from an empty `sDllMap`, with any library names, search paths and
loader state, by calls of `load`, `testLoad` and `unload`, whatever they return; between the
calls the library names and the search paths may change in any way. -/
inductive LoadReachable (P : Platform) (L : Loader σ) : State σ → Prop where
  | start (s : State σ) : s.sDllMap = [] → LoadReachable P L s
  | load {s s' : State σ} (dllname : String) (r : Bool) :
      LoadReachable P L s → load P L dllname s = some (r, s') → LoadReachable P L s'
  | testLoad {s s' : State σ} (dllname : String) (r : Bool) :
      LoadReachable P L s → testLoad P L dllname s = some (r, s') → LoadReachable P L s'
  | unload {s s' : State σ} (dllname : String) (r : Bool) :
      LoadReachable P L s → unload P L dllname s = some (r, s') → LoadReachable P L s'
  | configure {s : State σ} (dirs : List String) (names : StdMap (List String)) :
      LoadReachable P L s → LoadReachable P L { s with sLibDirs := dirs, sLibNamesMap := names }

/-- What a native call changes in the number of times the module with the native handle `h` is
open: one more for an open that returned `h`, one less for a `dlclose` of `h` that returned `0`
and for a `FreeLibrary` of `h` that released the module. -/
def Call.openDelta (h : Nat) : Call → Int
  | .dlopen _ result => if result = h then 1 else 0
  | .LoadLibrary _ result => if result = h then 1 else 0
  | .dlclose handle rc => if handle = h ∧ rc = 0 then -1 else 0
  | .FreeLibrary handle released => if handle = h ∧ released = true then -1 else 0
  | _ => 0

/-- The number of times the module with the native handle `h` is open after the native calls
of `trace`; the module is currently open when this number is positive. -/
def openCount (h : Nat) (trace : List Call) : Int :=
  (trace.map (Call.openDelta h)).sum

/-! ## A sample platform and sample states -/

/-- Sample `dlopen`: the only library on disk is `libfoo.so`, opened with handle `7`; the
state of the sample platform counts the native calls. -/
def sample_dlopen (st : Nat) (path : String) : Nat × Nat :=
  (if path = "libfoo.so" then 7 else 0, st + 1)

/-- Sample `dlerror`. -/
def sample_dlerror (st : Nat) : String × Nat :=
  ("cannot open shared object file", st + 1)

/-- On the sample platform an error is pending whenever `dlerror()` is asked. -/
def sample_dlerrorIsNull (_st : Nat) : Bool :=
  false

/-- Sample `dlclose`: succeeds on the handle `7`. -/
def sample_dlclose (st : Nat) (handle : Nat) : Int × Nat :=
  (if handle = 7 then 0 else 1, st + 1)

/-- Sample `dlclose` of a platform that refuses to release a library. -/
def sample_dlclose_busy (st : Nat) (_handle : Nat) : Int × Nat :=
  (1, st + 1)

/-- Sample `dlsym`: the library with handle `7` exports the one symbol `_foo`, at address `42`. -/
def sample_dlsym (st : Nat) (handle : Nat) (symb : String) : Nat × Nat :=
  (if handle = 7 ∧ symb = "_foo" then 42 else 0, st + 1)

/-- Sample `LoadLibrary`: the only library on disk is `foo.dll`, opened with handle `9`. -/
def sample_LoadLibrary (st : Nat) (path : String) : Nat × Nat :=
  (if path = "foo.dll" then 9 else 0, st + 1)

/-- Sample `GetLastError`: `ERROR_MOD_NOT_FOUND`. -/
def sample_GetLastError (st : Nat) : Nat × Nat :=
  (126, st + 1)

/-- Sample `GetLastErrorString`. -/
def sample_GetLastErrorString (st : Nat) (_code : Nat) : String × Nat :=
  ("The specified module could not be found.", st + 1)

/-- Sample `FreeLibrary`: releases the module. -/
def sample_FreeLibrary (st : Nat) (_handle : Nat) : Bool × Nat :=
  (true, st + 1)

/-- Sample `GetProcAddress`: the library with handle `9` exports `_foo`, at address `43`. -/
def sample_GetProcAddress (st : Nat) (handle : Nat) (symb : String) : Nat × Nat :=
  (if handle = 9 ∧ symb = "_foo" then 43 else 0, st + 1)

/-- A sample platform loader. -/
def sampleLoader : Loader Nat :=
  ⟨sample_dlopen, sample_dlerror, sample_dlerrorIsNull, sample_dlclose, sample_dlsym,
    sample_LoadLibrary,
    sample_GetLastError, sample_GetLastErrorString, sample_FreeLibrary, sample_GetProcAddress⟩

/-- The sample platform loader, except that `dlclose` always fails. -/
def busyLoader : Loader Nat :=
  ⟨sample_dlopen, sample_dlerror, sample_dlerrorIsNull, sample_dlclose_busy, sample_dlsym,
    sample_LoadLibrary,
    sample_GetLastError, sample_GetLastErrorString, sample_FreeLibrary, sample_GetProcAddress⟩

/-- Sample state: nothing loaded, and `media` has the candidate names `nope` and `foo`. -/
def sampleAliasState : State Nat :=
  ⟨[], [("media", ["nope", "foo"])], [], [], ⟨0, []⟩⟩

/-- Sample state: nothing loaded, and `mylib` has the candidate names `nope1` and `nope2`. -/
def sampleNopeState : State Nat :=
  ⟨[], [("mylib", ["nope1", "nope2"])], [], [], ⟨0, []⟩⟩

/-- Sample state after `load("foo")` at program start on the sample platform: the handle
object at address `1` holds `libfoo.so`. -/
def sampleLoadedState : State Nat :=
  ⟨[], [("foo", [])], [("foo", 1)], [(1, ⟨"libfoo.so", 7, ""⟩)],
    ⟨3, [Call.dlopen "foo.so" 0, Call.dlerror "cannot open shared object file",
         Call.dlopen "libfoo.so" 7]⟩⟩

/-- Sample state after `unload("foo")` has failed on the platform whose `dlclose` fails: the
entry and the native handle `7` are still there. -/
def sampleBusyState : State Nat :=
  ⟨[], [("foo", [])], [("foo", 1)], [(1, ⟨"libfoo.so", 7, "cannot open shared object file"⟩)],
    ⟨5, [Call.dlopen "foo.so" 0, Call.dlerror "cannot open shared object file",
         Call.dlopen "libfoo.so" 7, Call.dlclose 7 1,
         Call.dlerror "cannot open shared object file"]⟩⟩

/-- Sample `LoadLibrary` of a Windows platform whose state is the last error code: the only
library on disk is `foo.dll`, opened with handle `9`; a failure sets the last error to `126`
(`ERROR_MOD_NOT_FOUND`), a success leaves the last error as it is. -/
def stale_LoadLibrary (st : Nat) (path : String) : Nat × Nat :=
  if path = "foo.dll" then (9, st) else (0, 126)

/-- Sample `GetLastError`: the last error code. -/
def stale_GetLastError (st : Nat) : Nat × Nat :=
  (st, st)

/-- Sample `GetLastErrorString`. -/
def stale_GetLastErrorString (st : Nat) (_code : Nat) : String × Nat :=
  ("The specified module could not be found.", st)

/-- Sample `FreeLibrary`: releases the module and leaves the last error as it is. -/
def stale_FreeLibrary (st : Nat) (_handle : Nat) : Bool × Nat :=
  (true, st)

/-- Sample `GetProcAddress`: the module with handle `9` exports `_foo`, at address `43`; a
failure sets the last error to `127` (`ERROR_PROC_NOT_FOUND`). -/
def stale_GetProcAddress (st : Nat) (handle : Nat) (symb : String) : Nat × Nat :=
  if handle = 9 ∧ symb = "_foo" then (43, st) else (0, 127)

/-- A sample Windows platform on which a successful call does not reset the last error. -/
def staleErrorLoader : Loader Nat :=
  ⟨sample_dlopen, sample_dlerror, sample_dlerrorIsNull, sample_dlclose, sample_dlsym,
    stale_LoadLibrary, stale_GetLastError, stale_GetLastErrorString, stale_FreeLibrary,
    stale_GetProcAddress⟩

/-- Sample state under `Q_OS_WIN` after `load("media")` from `sampleAliasState`:
`nope.dll` failed, `foo.dll` was opened with handle `9`, and the last error is still `126`. -/
def sampleWinLoadedState : State Nat :=
  ⟨[], [("media", ["nope", "foo"])], [("media", 1)], [(1, ⟨"foo.dll", 9, ""⟩)],
    ⟨126, [Call.LoadLibrary "nope.dll" 0, Call.GetLastError 126,
           Call.GetLastErrorString 126 "The specified module could not be found.",
           Call.LoadLibrary "foo.dll" 9]⟩⟩

/-- Sample state under `Q_OS_WIN` after the `unload("media")` that follows: `FreeLibrary`
released the module, and the entry with the native handle `9` is still there. -/
def sampleWinStaleState : State Nat :=
  ⟨[], [("media", ["nope", "foo"])], [("media", 1)],
    [(1, ⟨"foo.dll", 9, "The specified module could not be found."⟩)],
    ⟨126, [Call.LoadLibrary "nope.dll" 0, Call.GetLastError 126,
           Call.GetLastErrorString 126 "The specified module could not be found.",
           Call.LoadLibrary "foo.dll" 9, Call.FreeLibrary 9 true, Call.GetLastError 126,
           Call.GetLastErrorString 126 "The specified module could not be found."]⟩⟩

/-- Number of entries of `sDllMap` whose handle object holds the native handle `h`. -/
def entriesWithHandle (h : Nat) (s : State σ) : Nat :=
  s.sDllMap.countP (fun e => decide ((Heap.get s.heap e.2).map DllObject.handle = some h))

/-- The account of the open modules: the keys of `sDllMap` are distinct, and for every non-null
native handle the entries holding it are as many as the times its module is open by the
trace. -/
def State.Accounted (s : State σ) : Prop :=
  (s.sDllMap.map Prod.fst).Nodup ∧
    ∀ h, h ≠ 0 → (entriesWithHandle h s : Int) = openCount h s.world.trace

/-- States reached from a start with an empty `sDllMap` and no native call made, by calls of
`load`, `testLoad` and `unload` and by changes of the search paths and library names. -/
inductive StartReachable (P : Platform) (L : Loader σ) : State σ → Prop where
  | start (s : State σ) : s.sDllMap = [] → s.world.trace = [] → StartReachable P L s
  | load {s s' : State σ} (dllname : String) (r : Bool) :
      StartReachable P L s → load P L dllname s = some (r, s') → StartReachable P L s'
  | testLoad {s s' : State σ} (dllname : String) (r : Bool) :
      StartReachable P L s → testLoad P L dllname s = some (r, s') → StartReachable P L s'
  | unload {s s' : State σ} (dllname : String) (r : Bool) :
      StartReachable P L s → unload P L dllname s = some (r, s') → StartReachable P L s'
  | configure {s : State σ} (dirs : List String) (names : StdMap (List String)) :
      StartReachable P L s → StartReachable P L { s with sLibDirs := dirs, sLibNamesMap := names }

/-! ## Lemmas on maps and the heap -/

section MapLemmas

variable {V : Type}

theorem StdMap.find_set_self (k : String) (v : V) (m : StdMap V) :
    StdMap.find (StdMap.set k v m) k = some v := by
  induction m with
  | nil => simp [StdMap.set, StdMap.find]
  | cons e m ih =>
    obtain ⟨k', v'⟩ := e
    simp only [StdMap.set]
    split
    · simp [StdMap.find]
    · rename_i hne
      split
      · simp [StdMap.find]
      · simp [StdMap.find, hne, ih]

theorem StdMap.find_set_ne (k k' : String) (v : V) (m : StdMap V) (h : k' ≠ k) :
    StdMap.find (StdMap.set k v m) k' = StdMap.find m k' := by
  induction m with
  | nil => simp [StdMap.set, StdMap.find, h.symm]
  | cons e m ih =>
    obtain ⟨k₀, v₀⟩ := e
    simp only [StdMap.set]
    split
    · rename_i heq
      subst heq
      simp [StdMap.find, h.symm]
    · split
      · simp [StdMap.find, h.symm]
      · simp [StdMap.find, ih]

theorem StdMap.find_erase_self (k : String) (m : StdMap V) :
    StdMap.find (StdMap.erase m k) k = none := by
  induction m with
  | nil => simp [StdMap.erase, StdMap.find]
  | cons e m ih =>
    obtain ⟨k₀, v₀⟩ := e
    by_cases h : k₀ = k
    · simpa [StdMap.erase, List.filter_cons, h] using ih
    · simpa [StdMap.erase, List.filter_cons, h, StdMap.find] using ih

theorem StdMap.find_erase_ne (k k' : String) (m : StdMap V) (h : k' ≠ k) :
    StdMap.find (StdMap.erase m k) k' = StdMap.find m k' := by
  induction m with
  | nil => simp [StdMap.erase, StdMap.find]
  | cons e m ih =>
    obtain ⟨k₀, v₀⟩ := e
    by_cases h0 : k₀ = k
    · subst h0
      have : ¬ k₀ = k' := fun e => h e.symm
      simpa [StdMap.erase, List.filter_cons, StdMap.find, this] using ih
    · by_cases h1 : k₀ = k'
      · subst h1
        simp [StdMap.erase, List.filter_cons, h, StdMap.find]
      · simpa [StdMap.erase, List.filter_cons, h0, StdMap.find, h1] using ih

theorem StdMap.mem_of_find {k : String} {v : V} {m : StdMap V} (h : StdMap.find m k = some v) :
    (k, v) ∈ m := by
  induction m with
  | nil => simp [StdMap.find] at h
  | cons e m ih =>
    obtain ⟨k₀, v₀⟩ := e
    simp only [StdMap.find] at h
    split at h
    · rename_i heq
      simp only [Option.some.injEq] at h
      subst heq; subst h
      exact List.mem_cons_self _ _
    · exact List.mem_cons_of_mem _ (ih h)

/-- With pairwise different pointers in the map, the search by pointer of `unload` finds the
entry that holds the pointer. -/
theorem StdMap.find_if_value {k : String} {p : Nat} {m : StdMap Nat}
    (hnd : (m.map Prod.snd).Nodup) (hmem : (k, p) ∈ m) :
    StdMap.find_if m (fun e => e.2 = p) = some (k, p) := by
  induction m with
  | nil => simp at hmem
  | cons e m ih =>
    obtain ⟨k₀, p₀⟩ := e
    simp only [List.map_cons, List.nodup_cons] at hnd
    rcases List.mem_cons.mp hmem with heq | hin
    · simp only [Prod.mk.injEq] at heq
      obtain ⟨rfl, rfl⟩ := heq
      simp [StdMap.find_if]
    · have hne : p₀ ≠ p := by
        intro hpp
        subst hpp
        exact hnd.1 (List.mem_map.mpr ⟨(k, p₀), hin, rfl⟩)
      have := ih hnd.2 hin
      simpa [StdMap.find_if, List.find?_cons, hne] using this

theorem Heap.le_fresh {h : Heap} {p : Nat} {d : DllObject} (hm : (p, d) ∈ h) :
    p < Heap.fresh h := by
  induction h with
  | nil => simp at hm
  | cons e h ih =>
    rcases List.mem_cons.mp hm with heq | hin
    · subst heq
      simp [Heap.fresh]
      omega
    · have := ih hin
      simp [Heap.fresh] at this ⊢
      omega

theorem Heap.mem_of_get {h : Heap} {p : Nat} {d : DllObject} (hg : Heap.get h p = some d) :
    (p, d) ∈ h := by
  induction h with
  | nil => simp [Heap.get] at hg
  | cons e h ih =>
    obtain ⟨q, d'⟩ := e
    simp only [Heap.get] at hg
    split at hg
    · rename_i heq
      simp only [Option.some.injEq] at hg
      subst heq; subst hg
      exact List.mem_cons_self _ _
    · exact List.mem_cons_of_mem _ (ih hg)

theorem Heap.fresh_ne_zero (h : Heap) : Heap.fresh h ≠ 0 := by
  simp [Heap.fresh]

theorem Heap.get_fresh (h : Heap) : Heap.get h (Heap.fresh h) = none := by
  cases hg : Heap.get h (Heap.fresh h) with
  | none => rfl
  | some d => exact absurd (Heap.le_fresh (Heap.mem_of_get hg)) (lt_irrefl _)

end MapLemmas

/-! ## Lemmas on strings and file names -/

theorem rfindFrom_some {s pat : List Char} {n pos : Nat} (h : rfindFrom s pat n = some pos) :
    pos ≤ n ∧ pat <+: s.drop pos := by
  induction n with
  | zero =>
    simp only [rfindFrom] at h
    split at h
    · rename_i hp
      simp only [Option.some.injEq] at h
      subst h
      exact ⟨le_refl _, by simpa using List.isPrefixOf_iff_prefix.mp hp⟩
    · simp at h
  | succ n ih =>
    simp only [rfindFrom] at h
    split at h
    · rename_i hp
      simp only [Option.some.injEq] at h
      subst h
      exact ⟨le_refl _, List.isPrefixOf_iff_prefix.mp hp⟩
    · exact ⟨Nat.le_succ_of_le (ih h).1, (ih h).2⟩

theorem rfindFrom_none {s pat : List Char} {n : Nat} (h : rfindFrom s pat n = none) :
    ∀ q, q ≤ n → ¬ pat <+: s.drop q := by
  induction n with
  | zero =>
    intro q hq
    have : q = 0 := by omega
    subst this
    simp only [rfindFrom] at h
    split at h
    · simp at h
    · rename_i hp
      intro hpre
      exact hp (by simpa using List.isPrefixOf_iff_prefix.mpr hpre)
  | succ n ih =>
    intro q hq
    simp only [rfindFrom] at h
    split at h
    · simp at h
    · rename_i hp
      rcases Nat.lt_or_ge q (n + 1) with hlt | hge
      · exact ih h q (by omega)
      · have : q = n + 1 := by omega
        subst this
        intro hpre
        exact hp (List.isPrefixOf_iff_prefix.mpr hpre)

theorem rfindFrom_last {s pat : List Char} {n pos : Nat} (h : rfindFrom s pat n = some pos) :
    ∀ q, pos < q → q ≤ n → ¬ pat <+: s.drop q := by
  induction n with
  | zero => intro q h1 h2; omega
  | succ n ih =>
    intro q h1 h2
    simp only [rfindFrom] at h
    split at h
    · simp only [Option.some.injEq] at h
      omega
    · rename_i hp
      rcases Nat.lt_or_ge q (n + 1) with hlt | hge
      · exact ih h q h1 (by omega)
      · have : q = n + 1 := by omega
        subst this
        intro hpre
        exact hp (List.isPrefixOf_iff_prefix.mpr hpre)

/-- A match of `rfind` lies inside the string. -/
theorem rfind_bound {s pat : String} {pos : Nat} (h : rfind s pat = some pos) :
    pos + pat.length ≤ s.length := by
  unfold rfind at h
  split at h
  · have := (rfindFrom_some h).1
    omega
  · simp at h

/-- `rfind` answers `npos` exactly when the pattern occurs nowhere in the string. -/
theorem rfind_none_iff (s pat : String) :
    rfind s pat = none ↔ ∀ q, q + pat.length ≤ s.length → ¬ pat.data <+: s.data.drop q := by
  unfold rfind
  constructor
  · intro h q hq
    split at h
    · exact rfindFrom_none h q (by omega)
    · omega
  · intro h
    split
    · rename_i hle
      cases hr : rfindFrom s.data pat.data (s.length - pat.length) with
      | none => rfl
      | some pos =>
        have := rfindFrom_some hr
        exact absurd this.2 (h pos (by omega))
    · rfl

/-- `rfind` answers the last position at which the pattern occurs. -/
theorem rfind_some_iff (s pat : String) (pos : Nat) :
    rfind s pat = some pos ↔
      pos + pat.length ≤ s.length ∧ pat.data <+: s.data.drop pos ∧
        ∀ q, pos < q → q + pat.length ≤ s.length → ¬ pat.data <+: s.data.drop q := by
  constructor
  · intro h
    refine ⟨rfind_bound h, ?_, ?_⟩
    · unfold rfind at h
      split at h
      · exact (rfindFrom_some h).2
      · simp at h
    · intro q h1 h2
      unfold rfind at h
      split at h
      · exact rfindFrom_last h q h1 (by omega)
      · simp at h
  · rintro ⟨hb, hocc, hlast⟩
    cases hr : rfind s pat with
    | none => exact absurd hocc ((rfind_none_iff s pat).mp hr pos hb)
    | some p =>
      have hp := hr
      unfold rfind at hp
      split at hp
      · have h1 := rfindFrom_some hp
        have h2 := rfindFrom_last hp
        rcases Nat.lt_trichotomy p pos with hlt | heq | hgt
        · exact absurd hocc (h2 pos hlt (by omega))
        · rw [heq]
        · exact absurd h1.2 (hlast p hgt (by omega))
      · simp at hp

theorem storedFileName_eq (P : Platform) (name : String) :
    storedFileName P name =
      match rfind name (kDllSuffix P) with
      | none => name ++ kDllSuffix P
      | some _ => name := by
  unfold storedFileName DllObject.setFileName
  by_cases hlen : name.length < (kDllSuffix P).length
  · have : rfind name (kDllSuffix P) = none := by
      unfold rfind
      rw [if_neg (by omega)]
    simp [hlen, this, DllObject.new]
  · cases hr : rfind name (kDllSuffix P) with
    | none => simp [hlen, DllObject.new]
    | some pos =>
      have := rfind_bound hr
      have hn : ¬ name.length < pos + (kDllSuffix P).length := by omega
      simp [hlen, hn]

theorem DllObject.setFileName_eq (P : Platform) (name : String) (d : DllObject) :
    d.setFileName P name = some { d with file := storedFileName P name } := by
  rw [storedFileName_eq]
  unfold DllObject.setFileName
  by_cases hlen : name.length < (kDllSuffix P).length
  · have : rfind name (kDllSuffix P) = none := by
      unfold rfind
      rw [if_neg (by omega)]
    simp [hlen, this]
  · cases hr : rfind name (kDllSuffix P) with
    | none => simp [hlen]
    | some pos =>
      have := rfind_bound hr
      have hn : ¬ name.length < pos + (kDllSuffix P).length := by omega
      simp [hlen, hn]

/-! ## Closed forms of the handle operations -/

theorem substr_zero_eq_iff (s p : String) :
    substr s 0 p.length = some p ↔ p.data <+: s.data := by
  unfold substr
  simp only [gt_iff_lt, Nat.not_lt_zero, ↓reduceIte, List.drop_zero, Option.some.injEq]
  rw [List.prefix_iff_eq_take]
  constructor
  · intro h
    exact congrArg String.data h.symm
  · intro h
    apply String.ext
    exact h.symm

theorem DllObject._loadBody_false (P : Platform) (L : Loader σ)
    (again : DllObject → World σ → Bool × DllObject × World σ) (d : DllObject) (w : World σ) :
    DllObject._loadBody P L again false d w =
      (let o1 := w.openLibrary P L d.file
       if o1.1 ≠ 0 then (true, ⟨d.file, o1.1, ""⟩, o1.2)
       else
         let e1 := o1.2.lastErrorText P L
         (false, ⟨d.file, 0, e1.1⟩, e1.2)) := by
  by_cases h1 : (World.openLibrary P L w d.file).1 = 0
  · simp [DllObject._loadBody, DllObject.nativeOpen, h1]
  · simp [DllObject._loadBody, DllObject.nativeOpen, h1]

theorem DllObject._loadBody_true (P : Platform) (hP : (kDllPrefix P).length ≠ 0) (L : Loader σ)
    (again : DllObject → World σ → Bool × DllObject × World σ) (d : DllObject) (w : World σ) :
    DllObject._loadBody P L again true d w =
      (let o1 := w.openLibrary P L d.file
       if o1.1 ≠ 0 then (true, ⟨d.file, o1.1, ""⟩, o1.2)
       else
         let e1 := o1.2.lastErrorText P L
         if (kDllPrefix P).data <+: d.file.data then (false, ⟨d.file, 0, e1.1⟩, e1.2)
         else again ⟨kDllPrefix P ++ d.file, 0, e1.1⟩ e1.2) := by
  have hsub := substr_zero_eq_iff d.file (kDllPrefix P)
  by_cases h1 : (World.openLibrary P L w d.file).1 = 0
  · by_cases hp : (kDllPrefix P).data <+: d.file.data
    · simp [DllObject._loadBody, DllObject.nativeOpen, h1, hsub.mpr hp, hp]
    · have hs : ¬ substr d.file 0 (kDllPrefix P).length = some (kDllPrefix P) :=
        fun h => hp (hsub.mp h)
      simp [DllObject._loadBody, DllObject.nativeOpen, h1, hs, hp, hP]
  · simp [DllObject._loadBody, DllObject.nativeOpen, h1]

/-- Closed form of `DllObject::load`: one native open, and a second one with the prefix
prepended when the first fails and the file name does not start with the prefix. -/
theorem DllObject.load_eq (P : Platform) (L : Loader σ) (d : DllObject) (w : World σ) :
    d.load P L w =
      (let o1 := w.openLibrary P L d.file
       if o1.1 ≠ 0 then (true, ⟨d.file, o1.1, ""⟩, o1.2)
       else
         let e1 := o1.2.lastErrorText P L
         if (kDllPrefix P).data <+: d.file.data then (false, ⟨d.file, 0, e1.1⟩, e1.2)
         else
           let o2 := e1.2.openLibrary P L (kDllPrefix P ++ d.file)
           if o2.1 ≠ 0 then (true, ⟨kDllPrefix P ++ d.file, o2.1, ""⟩, o2.2)
           else
             let e2 := o2.2.lastErrorText P L
             (false, ⟨kDllPrefix P ++ d.file, 0, e2.1⟩, e2.2)) := by
  cases P
  · have hpre : (kDllPrefix Platform.Q_OS_WIN).data <+: d.file.data := by
      simp [kDllPrefix]
    simp only [DllObject.load, DllObject._load, DllObject._loadBody_false, hpre, if_true]
  · simp only [DllObject.load, DllObject._load]
    rw [DllObject._loadBody_true _ (by decide)]
    simp only [DllObject._loadBody_false]
  · simp only [DllObject.load, DllObject._load]
    rw [DllObject._loadBody_true _ (by decide)]
    simp only [DllObject._loadBody_false]

/-! ## The native calls on the trace -/

theorem World.openLibrary_trace (P : Platform) (L : Loader σ) (w : World σ) (path : String) :
    ∃ ev, (w.openLibrary P L path).2.trace = w.trace ++ [ev] ∧
      ev.opened = some (path, (w.openLibrary P L path).1) ∧ ev.lookedUp = none := by
  cases P <;>
    simp [World.openLibrary, World.LoadLibrary, World.dlopen, Call.opened, Call.lookedUp]

theorem World.lastErrorText_trace (P : Platform) (L : Loader σ) (w : World σ) :
    ∃ evs, (w.lastErrorText P L).2.trace = w.trace ++ evs ∧
      evs.filterMap Call.opened = [] ∧ evs.filterMap Call.lookedUp = [] := by
  cases P
  · refine ⟨[Call.GetLastError (L.GetLastError w.st).1,
      Call.GetLastErrorString (L.GetLastError w.st).1
        (L.GetLastErrorString (L.GetLastError w.st).2 (L.GetLastError w.st).1).1], ?_, ?_, ?_⟩ <;>
      simp [World.lastErrorText, World.GetLastError, World.GetLastErrorString, Call.opened,
        Call.lookedUp]
  all_goals
    refine ⟨[Call.dlerror (L.dlerror w.st).1], ?_, ?_, ?_⟩ <;>
      simp [World.lastErrorText, World.dlerror, Call.opened, Call.lookedUp]

/-- The native opens made by one `DllObject::load`. -/
theorem DllObject.load_opens (P : Platform) (L : Loader σ) (d : DllObject) (w : World σ) :
    ∃ evs, (d.load P L w).2.2.trace = w.trace ++ evs ∧
      (∀ o ∈ evs.filterMap Call.opened, ∃ w0 : World σ, o.2 = (w0.openLibrary P L o.1).1) ∧
      ((d.load P L w).1 = true →
        ∃ fails last, evs.filterMap Call.opened = fails ++ [last] ∧
          (∀ o ∈ fails, o.2 = 0) ∧ last.2 ≠ 0 ∧
          (d.load P L w).2.1 = ⟨last.1, last.2, ""⟩ ∧
          (fails ++ [last]).map Prod.fst <+: attemptPaths P d.file) ∧
      ((d.load P L w).1 = false →
        (evs.filterMap Call.opened).map Prod.fst = attemptPaths P d.file ∧
          (∀ o ∈ evs.filterMap Call.opened, o.2 = 0) ∧
          (d.load P L w).2.1.handle = 0) := by
  rw [DllObject.load_eq]
  obtain ⟨ev1, ht1, ho1, -⟩ := World.openLibrary_trace P L w d.file
  obtain ⟨ee1, hte1, hoe1, -⟩ :=
    World.lastErrorText_trace P L (w.openLibrary P L d.file).2
  obtain ⟨ev2, ht2, ho2, -⟩ := World.openLibrary_trace P L
    ((w.openLibrary P L d.file).2.lastErrorText P L).2 (kDllPrefix P ++ d.file)
  obtain ⟨ee2, hte2, hoe2, -⟩ := World.lastErrorText_trace P L
    (World.openLibrary P L ((w.openLibrary P L d.file).2.lastErrorText P L).2
      (kDllPrefix P ++ d.file)).2
  have hg1 : ∃ w0 : World σ, (World.openLibrary P L w d.file).1
      = (w0.openLibrary P L d.file).1 := ⟨w, rfl⟩
  have hg2 : ∃ w0 : World σ,
      (World.openLibrary P L ((w.openLibrary P L d.file).2.lastErrorText P L).2
        (kDllPrefix P ++ d.file)).1 = (w0.openLibrary P L (kDllPrefix P ++ d.file)).1 :=
    ⟨_, rfl⟩
  by_cases h1 : (World.openLibrary P L w d.file).1 = 0
  · by_cases hp : (kDllPrefix P).data <+: d.file.data
    · refine ⟨[ev1] ++ ee1, ?_, ?_, ?_, ?_⟩
      · simp [h1, hp, hte1, ht1]
      · simpa [ho1, hoe1, List.filterMap_append] using hg1
      · simp [h1, hp]
      · simp [h1, hp, attemptPaths, ho1, hoe1, List.filterMap_append]
    · by_cases h2 : (World.openLibrary P L ((w.openLibrary P L d.file).2.lastErrorText P L).2
          (kDllPrefix P ++ d.file)).1 = 0
      · refine ⟨[ev1] ++ ee1 ++ [ev2] ++ ee2, ?_, ?_, ?_, ?_⟩
        · simp [h1, hp, h2, hte1, ht1, ht2, hte2]
        · simpa [ho1, hoe1, ho2, hoe2, List.filterMap_append] using ⟨hg1, hg2⟩
        · simp [h1, hp, h2]
        · simp [h1, hp, h2, attemptPaths, ho1, hoe1, ho2, hoe2, List.filterMap_append]
      · refine ⟨[ev1] ++ ee1 ++ [ev2], ?_, ?_, ?_, ?_⟩
        · simp [h1, hp, h2, hte1, ht1, ht2]
        · simpa [ho1, hoe1, ho2, List.filterMap_append] using ⟨hg1, hg2⟩
        · intro _
          refine ⟨[(d.file, 0)], (kDllPrefix P ++ d.file, _), ?_, ?_, h2, ?_, ?_⟩
          · simp [h1, ho1, hoe1, ho2, List.filterMap_append]
          · simp
          · simp [h1, hp, h2]
          · simp [attemptPaths, hp]
        · simp [h1, hp, h2]
  · refine ⟨[ev1], ?_, ?_, ?_, ?_⟩
    · simp [h1, ht1]
    · simpa [ho1] using hg1
    · intro _
      refine ⟨[], (d.file, _), ?_, ?_, h1, ?_, ?_⟩
      · simp [ho1]
      · simp
      · simp [h1]
      · simp only [List.nil_append, List.map_cons, List.map_nil, attemptPaths]
        split <;> simp
    · simp [h1]

/-- The native opens made by the candidate loop of `load`. -/
theorem loadLoop_opens (P : Platform) (L : Loader σ) (names : List String) :
    ∀ (dll : DllObject) (w : World σ), ∃ r obj w' evs,
      loadLoop P L names dll w = some (r, obj, w') ∧ w'.trace = w.trace ++ evs ∧
      (∀ o ∈ evs.filterMap Call.opened, ∃ w0 : World σ, o.2 = (w0.openLibrary P L o.1).1) ∧
      (r = true →
        ∃ fails last, evs.filterMap Call.opened = fails ++ [last] ∧
          (∀ o ∈ fails, o.2 = 0) ∧ last.2 ≠ 0 ∧ obj = ⟨last.1, last.2, ""⟩ ∧
          (fails ++ [last]).map Prod.fst <+: attemptList P names) ∧
      (r = false →
        (evs.filterMap Call.opened).map Prod.fst = attemptList P names ∧
          ∀ o ∈ evs.filterMap Call.opened, o.2 = 0) := by
  induction names with
  | nil =>
    intro dll w
    exact ⟨false, dll, w, [], by simp [loadLoop], by simp, by simp, by simp,
      by simp [attemptList]⟩
  | cons name rest ih =>
    intro dll w
    obtain ⟨evs1, ht1, hgen1, hok1, hfail1⟩ :=
      DllObject.load_opens P L { dll with file := storedFileName P (c_str name) } w
    cases hr : (DllObject.load P L { dll with file := storedFileName P (c_str name) } w).1 with
    | true =>
      obtain ⟨fails, last, h1, h2, h3, h4, h5⟩ := hok1 hr
      refine ⟨true, (DllObject.load P L { dll with file := storedFileName P (c_str name) } w).2.1,
        _, evs1, ?_, ht1, hgen1, ?_, by simp⟩
      · simp [loadLoop, DllObject.setFileName_eq, hr]
      · intro _
        refine ⟨fails, last, h1, h2, h3, h4, ?_⟩
        simp only [attemptList]
        exact h5.trans (List.prefix_append _ _)
    | false =>
      obtain ⟨h1, h2, -⟩ := hfail1 hr
      obtain ⟨r, obj, w', evs2, hl, ht2, hgen2, hok2, hfail2⟩ := ih
        (DllObject.load P L { dll with file := storedFileName P (c_str name) } w).2.1
        (DllObject.load P L { dll with file := storedFileName P (c_str name) } w).2.2
      refine ⟨r, obj, w', evs1 ++ evs2, ?_, ?_, ?_, ?_, ?_⟩
      · simp [loadLoop, DllObject.setFileName_eq, hr, hl]
      · rw [ht2, ht1, List.append_assoc]
      · intro o ho
        rw [List.filterMap_append] at ho
        rcases List.mem_append.mp ho with ho | ho
        · exact hgen1 o ho
        · exact hgen2 o ho
      · intro hrt
        obtain ⟨fails, last, g1, g2, g3, g4, g5⟩ := hok2 hrt
        refine ⟨evs1.filterMap Call.opened ++ fails, last, ?_, ?_, g3, g4, ?_⟩
        · rw [List.filterMap_append, g1, List.append_assoc]
        · intro o ho
          rcases List.mem_append.mp ho with ho | ho
          · exact h2 o ho
          · exact g2 o ho
        · simp only [attemptList]
          rw [List.append_assoc, List.map_append, h1]
          exact (List.prefix_append_right_inj _).mpr g5
      · intro hrf
        obtain ⟨g1, g2⟩ := hfail2 hrf
        refine ⟨?_, ?_⟩
        · simp only [attemptList]
          rw [List.filterMap_append, List.map_append, h1, g1]
        · intro o ho
          rw [List.filterMap_append] at ho
          rcases List.mem_append.mp ho with ho | ho
          · exact h2 o ho
          · exact g2 o ho

/-! ## The entry points -/

theorem candidateNames_eq (dllname : String) (s : State σ) :
    (if (StdMap.index [] s.sLibNamesMap dllname).1.isEmpty
      then (StdMap.index [] s.sLibNamesMap dllname).1 ++ [dllname]
      else (StdMap.index [] s.sLibNamesMap dllname).1) = candidateNames dllname s := by
  unfold candidateNames getLibraryNames
  cases h : (StdMap.index [] s.sLibNamesMap dllname).1 <;> simp

/-- The two outcomes of `load` for an identifier without a handle, from the outcome of the
candidate loop. -/
theorem load_of_loop (P : Platform) (L : Loader σ) (dllname : String) (s : State σ)
    (h : library dllname s = 0) {r : Bool} {obj : DllObject} {w' : World σ}
    (hl : loadLoop P L (candidateNames dllname s) DllObject.new s.world = some (r, obj, w')) :
    load P L dllname s = some (r,
      if r then
        { s with sLibNamesMap := (getLibraryNames dllname s).2.sLibNamesMap,
                 sDllMap := StdMap.set dllname (Heap.fresh s.heap) s.sDllMap,
                 heap := (Heap.fresh s.heap, obj) :: s.heap, world := w' }
      else { s with sLibNamesMap := (getLibraryNames dllname s).2.sLibNamesMap, world := w' }) := by
  unfold load
  rw [if_neg (by simp [h])]
  simp only [candidateNames_eq, hl]
  cases r <;> simp [getLibraryNames]

theorem library_set_self (dllname : String) (p : Nat) (s : State σ)
    (m : StdMap (List String)) (hp : Heap) (w : World σ) :
    library dllname { s with sLibNamesMap := m, sDllMap := StdMap.set dllname p s.sDllMap,
                             heap := hp, world := w } = p := by
  simp [library, StdMap.find_set_self]

theorem load_of_loaded (P : Platform) (L : Loader σ) (dllname : String) (s : State σ)
    (h : library dllname s ≠ 0) : load P L dllname s = some (true, s) := by
  unfold load
  rw [if_pos h]

theorem Heap.get_put_self {h : Heap} {p : Nat} {d : DllObject} (d' : DllObject)
    (hg : Heap.get h p = some d) : Heap.get (Heap.put p d' h) p = some d' := by
  induction h with
  | nil => simp [Heap.get] at hg
  | cons e h ih =>
    obtain ⟨q, d₀⟩ := e
    by_cases hq : q = p
    · simp [Heap.put, Heap.get, hq]
    · simp only [Heap.get, hq, if_false] at hg
      simp [Heap.put, Heap.get, hq, ih hg]

/-- The definition of `_load` satisfies the recursive equation of the method. -/
theorem DllObject._load_rec (P : Platform) (L : Loader σ) ( tryprefix : Bool) (d : DllObject)
    (w : World σ) :
    DllObject._load P L tryprefix d w
      = DllObject._loadBody P L (DllObject._load P L false) tryprefix d w := by
  have h : DllObject._load P L false
      = DllObject._loadBody P L (fun d w => (false, d, w)) false := by
    funext d w
    simp only [DllObject._load, DllObject._loadBody_false]
  rw [h]
  rfl

/-- The definition of `_reslove` satisfies the recursive equation of the method. -/
theorem DllObject._reslove_rec (P : Platform) (L : Loader σ) (symb : String) (again : Bool)
    (d : DllObject) (w : World σ) :
    DllObject._reslove P L symb again d w
      = DllObject._resloveBody P L (fun s => DllObject._reslove P L s false) symb again d w := by
  have h : (fun s => DllObject._reslove P L s false)
      = fun s d w => DllObject._resloveBody P L (fun _ d w => some (0, d, w)) s false d w := by
    funext s d w
    simp only [DllObject._reslove, DllObject._resloveBody]
    cases DllObject.nativeSym P L s d w <;> simp
  rw [h]
  rfl

/-- Outside `Q_OS_WIN` the method `DllObject::unload` goes by the result of `dlclose`: it
gives up the native handle exactly when `dlclose` returned `0`. -/
theorem DllObject.unload_by_dlclose (P : Platform) (hP : P ≠ Platform.Q_OS_WIN) (L : Loader σ)
    (d : DllObject) (w : World σ) (hd : d.handle ≠ 0) :
    (let r := L.dlclose w.st d.handle
     let e := L.dlerror r.2
     (r.1 = 0 →
        d.unload P L w = (true, { d with error := "", handle := 0 },
          ⟨r.2, w.trace ++ [Call.dlclose d.handle r.1]⟩)) ∧
     (r.1 ≠ 0 →
        d.unload P L w = (false, { d with error := e.1 },
          ⟨e.2, w.trace ++ [Call.dlclose d.handle r.1, Call.dlerror e.1]⟩))) := by
  cases P
  · exact absurd rfl hP
  all_goals
    refine ⟨?_, ?_⟩
    · intro h
      simp [DllObject.unload, World.dlclose, World.dlerror, hd, h]
    · intro h
      simp [DllObject.unload, World.dlclose, World.dlerror, hd, h]

/-- Under `Q_OS_WIN` the method `DllObject::unload` goes by `GetLastError()` alone: whether
`FreeLibrary` released the module has no part in what it returns or stores. -/
theorem DllObject.unload_by_GetLastError (L : Loader σ) (d : DllObject) (w : World σ)
    (hd : d.handle ≠ 0) :
    (let f := L.FreeLibrary w.st d.handle
     let c := L.GetLastError f.2
     let e := L.GetLastErrorString c.2 c.1
     (c.1 = 0 →
        d.unload Platform.Q_OS_WIN L w = (true, { d with error := "", handle := 0 },
          ⟨c.2, w.trace ++ [Call.FreeLibrary d.handle f.1, Call.GetLastError c.1]⟩)) ∧
     (c.1 ≠ 0 →
        d.unload Platform.Q_OS_WIN L w = (false, { d with error := e.1 },
          ⟨e.2, w.trace ++ [Call.FreeLibrary d.handle f.1, Call.GetLastError c.1,
            Call.GetLastErrorString c.1 e.1]⟩))) := by
  refine ⟨?_, ?_⟩
  · intro h
    simp [DllObject.unload, World.FreeLibrary, World.GetLastError, World.GetLastErrorString, hd, h]
  · intro h
    simp [DllObject.unload, World.FreeLibrary, World.GetLastError, World.GetLastErrorString, hd, h]

/-! ## The invariant of the handle registry -/

theorem StdMap.mem_set {V : Type} {k : String} {v : V} {m : StdMap V} {e : String × V}
    (h : e ∈ StdMap.set k v m) : e = (k, v) ∨ e ∈ m := by
  induction m with
  | nil => simpa [StdMap.set] using h
  | cons e₀ m ih =>
    obtain ⟨k₀, v₀⟩ := e₀
    simp only [StdMap.set] at h
    split at h
    · rcases List.mem_cons.mp h with h | h
      · exact Or.inl h
      · exact Or.inr (List.mem_cons_of_mem _ h)
    · split at h
      · rcases List.mem_cons.mp h with h | h
        · exact Or.inl h
        · exact Or.inr h
      · rcases List.mem_cons.mp h with h | h
        · exact Or.inr (h ▸ List.mem_cons_self _ _)
        · rcases ih h with h | h
          · exact Or.inl h
          · exact Or.inr (List.mem_cons_of_mem _ h)

theorem StdMap.nodup_set {k : String} {p : Nat} {m : StdMap Nat}
    (hnd : (m.map Prod.snd).Nodup) (hp : p ∉ m.map Prod.snd) :
    ((StdMap.set k p m).map Prod.snd).Nodup := by
  induction m with
  | nil => simp [StdMap.set]
  | cons e₀ m ih =>
    obtain ⟨k₀, v₀⟩ := e₀
    simp only [List.map_cons, List.nodup_cons, List.mem_cons, not_or] at hnd hp
    simp only [StdMap.set]
    split
    · simp only [List.map_cons, List.nodup_cons]
      exact ⟨hp.2, hnd.2⟩
    · split
      · simp only [List.map_cons, List.nodup_cons, List.mem_cons, not_or]
        exact ⟨⟨hp.1, hp.2⟩, hnd.1, hnd.2⟩
      · simp only [List.map_cons, List.nodup_cons]
        refine ⟨?_, ih hnd.2 hp.2⟩
        intro hmem
        obtain ⟨e, he, hev⟩ := List.mem_map.mp hmem
        rcases StdMap.mem_set he with h | h
        · subst h
          exact hp.1 hev
        · exact hnd.1 (List.mem_map.mpr ⟨e, h, hev⟩)

theorem Heap.get_put_isSome (h : Heap) (p q : Nat) (d : DllObject) :
    (Heap.get (Heap.put p d h) q).isSome = (Heap.get h q).isSome := by
  induction h with
  | nil => simp [Heap.put, Heap.get]
  | cons e h ih =>
    obtain ⟨a, d₀⟩ := e
    by_cases ha : a = p
    · subst ha
      by_cases hq : a = q
      · subst hq
        simp [Heap.put, Heap.get]
      · simp [Heap.put, Heap.get, hq, ih]
    · by_cases hq : a = q
      · subst hq
        simp [Heap.put, Heap.get, ha]
      · simp [Heap.put, Heap.get, ha, hq, ih]

theorem Heap.get_free_ne (h : Heap) {p q : Nat} (hne : q ≠ p) :
    Heap.get (Heap.free h p) q = Heap.get h q := by
  induction h with
  | nil => simp [Heap.free, Heap.get]
  | cons e h ih =>
    obtain ⟨a, d₀⟩ := e
    by_cases ha : a = p
    · subst ha
      have hq : ¬ a = q := fun e => hne e.symm
      simpa [Heap.free, List.filter_cons, Heap.get, hq] using ih
    · by_cases hq : a = q
      · subst hq
        simp [Heap.free, List.filter_cons, ha, Heap.get]
      · simpa [Heap.free, List.filter_cons, ha, Heap.get, hq] using ih

/-- The invariant holds at program start. -/
theorem State.WF_init (st : σ) : (State.init st).WF := by
  simp [State.WF, State.init]

/-- The function `load` keeps the invariant. -/
theorem load_preserves_WF (P : Platform) (L : Loader σ) (dllname : String) (s s' : State σ)
    (r : Bool) (hwf : s.WF) (h : load P L dllname s = some (r, s')) : s'.WF := by
  by_cases hlib : library dllname s = 0
  · obtain ⟨r₀, obj, w', evs, hl, -⟩ :=
      loadLoop_opens P L (candidateNames dllname s) DllObject.new s.world
    rw [load_of_loop P L dllname s hlib hl] at h
    simp only [Option.some.injEq, Prod.mk.injEq] at h
    obtain ⟨rfl, rfl⟩ := h
    cases r₀ with
    | false => exact hwf
    | true =>
      have hfresh : Heap.fresh s.heap ∉ s.sDllMap.map Prod.snd := by
        intro hmem
        obtain ⟨e, he, hev⟩ := List.mem_map.mp hmem
        have := (hwf.2 e he).2
        rw [hev, Heap.get_fresh] at this
        simp at this
      refine ⟨StdMap.nodup_set hwf.1 hfresh, ?_⟩
      intro e he
      rcases StdMap.mem_set he with h | h
      · subst h
        exact ⟨Heap.fresh_ne_zero _, by simp [Heap.get]⟩
      · have hne : Heap.fresh s.heap ≠ e.2 := by
          intro heq
          exact hfresh (List.mem_map.mpr ⟨e, h, heq.symm⟩)
        refine ⟨(hwf.2 e h).1, ?_⟩
        simpa [Heap.get, hne] using (hwf.2 e h).2
  · rw [load_of_loaded P L dllname s hlib] at h
    simp only [Option.some.injEq, Prod.mk.injEq] at h
    obtain ⟨-, rfl⟩ := h
    exact hwf

/-- The function `unload` keeps the invariant. -/
theorem unload_preserves_WF (P : Platform) (L : Loader σ) (dllname : String) (s s' : State σ)
    (r : Bool) (hwf : s.WF) (h : unload P L dllname s = some (r, s')) : s'.WF := by
  cases hf : StdMap.find s.sDllMap dllname with
  | none =>
    simp [unload, library, hf] at h
    obtain ⟨-, rfl⟩ := h
    exact hwf
  | some p =>
    have hp : library dllname s = p := by simp [library, hf]
    by_cases hp0 : p = 0
    · simp [unload, hp, hp0] at h
      obtain ⟨-, rfl⟩ := h
      exact hwf
    · have hmem := StdMap.mem_of_find hf
      cases hg : Heap.get s.heap p with
      | none => simp [unload, hp, hp0, hg] at h
      | some obj =>
        cases hu : (obj.unload P L s.world).1 with
        | false =>
          simp [unload, hp, hp0, hg, hu] at h
          obtain ⟨-, rfl⟩ := h
          refine ⟨hwf.1, fun e he => ⟨(hwf.2 e he).1, ?_⟩⟩
          simpa [Heap.get_put_isSome] using (hwf.2 e he).2
        | true =>
          have hfi := StdMap.find_if_value hwf.1 hmem
          simp [unload, hp, hp0, hg, hu, hfi] at h
          obtain ⟨-, rfl⟩ := h
          refine ⟨?_, ?_⟩
          · exact (hwf.1).sublist ((List.filter_sublist _).map _)
          · intro e he
            have he' : e ∈ s.sDllMap ∧ e.1 ≠ dllname := by
              simpa [StdMap.erase] using he
            have hne : e.2 ≠ p := by
              intro heq
              have hinj := List.inj_on_of_nodup_map hwf.1 he'.1 hmem heq
              exact he'.2 (congrArg Prod.fst hinj)
            refine ⟨(hwf.2 e he'.1).1, ?_⟩
            simpa [Heap.get_free_ne _ hne] using (hwf.2 e he'.1).2

/-- The function `testLoad` keeps the invariant. -/
theorem testLoad_preserves_WF (P : Platform) (L : Loader σ) (dllname : String)
    (s s' : State σ) (r : Bool) (hwf : s.WF) (h : testLoad P L dllname s = some (r, s')) :
    s'.WF := by
  unfold testLoad at h
  split at h
  · simp only [Option.some.injEq, Prod.mk.injEq] at h
    obtain ⟨-, rfl⟩ := h
    exact hwf
  · exact load_preserves_WF P L dllname s s' r hwf h

/-- On a state that satisfies the invariant `unload` has a defined result. -/
theorem unload_defined (P : Platform) (L : Loader σ) (dllname : String) (s : State σ)
    (hwf : s.WF) : ∃ r s', unload P L dllname s = some (r, s') := by
  cases hf : StdMap.find s.sDllMap dllname with
  | none => exact ⟨true, s, by simp [unload, library, hf]⟩
  | some p =>
    have hp : library dllname s = p := by simp [library, hf]
    by_cases hp0 : p = 0
    · exact ⟨true, s, by simp [unload, hp, hp0]⟩
    · have hmem := StdMap.mem_of_find hf
      have hlive := (hwf.2 _ hmem).2
      cases hg : Heap.get s.heap p with
      | none => simp [hg] at hlive
      | some obj =>
        have hfi := StdMap.find_if_value hwf.1 hmem
        cases hu : (obj.unload P L s.world).1 with
        | false => exact ⟨false, _, by simp [unload, hp, hp0, hg, hu]; rfl⟩
        | true => exact ⟨true, _, by simp [unload, hp, hp0, hg, hu, hfi]; rfl⟩

/-- Every state the program can be in satisfies the invariant. -/
theorem Reachable.WF {P : Platform} {L : Loader σ} {s : State σ} (h : Reachable P L s) :
    s.WF := by
  induction h with
  | init st => exact State.WF_init st
  | load dllname r _ hl ih => exact load_preserves_WF P L dllname _ _ r ih hl
  | testLoad dllname r _ hl ih => exact testLoad_preserves_WF P L dllname _ _ r ih hl
  | unload dllname r _ hl ih => exact unload_preserves_WF P L dllname _ _ r ih hl
  | configure dirs names _ ih => exact ih
  | useHandle p d d' w _ hg ih =>
    refine ⟨ih.1, fun e he => ⟨(ih.2 e he).1, ?_⟩⟩
    simpa [Heap.get_put_isSome] using (ih.2 e he).2

/-- The two outcomes of `unload` for an identifier with a handle, on a state that satisfies the
invariant. -/
theorem unload_of_WF (P : Platform) (L : Loader σ) (dllname : String) (s : State σ)
    (hwf : s.WF) (hlib : library dllname s ≠ 0) :
    ∃ obj, Heap.get s.heap (library dllname s) = some obj ∧
      ((obj.unload P L s.world).1 = false →
        ∃ s', unload P L dllname s = some (false, s') ∧
          library dllname s' = library dllname s ∧ s'.sDllMap = s.sDllMap ∧
          Heap.get s'.heap (library dllname s) = some (obj.unload P L s.world).2.1) ∧
      ((obj.unload P L s.world).1 = true →
        ∃ s', unload P L dllname s = some (true, s') ∧ library dllname s' = 0 ∧
          ∀ k, k ≠ dllname → StdMap.find s'.sDllMap k = StdMap.find s.sDllMap k) := by
  cases hf : StdMap.find s.sDllMap dllname with
  | none => simp [library, hf] at hlib
  | some p =>
    have hp : library dllname s = p := by simp [library, hf]
    have hmem := StdMap.mem_of_find hf
    obtain ⟨-, hlive⟩ := hwf.2 _ hmem
    cases hg : Heap.get s.heap p with
    | none => simp [hg] at hlive
    | some obj =>
      rw [hp] at hlib ⊢
      refine ⟨obj, hg, ?_, ?_⟩
      · intro hfail
        refine ⟨{ s with heap := Heap.put p (obj.unload P L s.world).2.1 s.heap,
                         world := (obj.unload P L s.world).2.2 }, ?_, ?_, rfl, ?_⟩
        · simp [unload, hp, hlib, hg, hfail]
        · simp [library, hf]
        · exact Heap.get_put_self _ hg
      · intro hok
        have hfi := StdMap.find_if_value hwf.1 hmem
        refine ⟨{ s with sDllMap := StdMap.erase s.sDllMap dllname,
                         heap := Heap.free s.heap p,
                         world := (obj.unload P L s.world).2.2 }, ?_, ?_, ?_⟩
        · simp [unload, hp, hlib, hg, hok, hfi]
        · simp [library, StdMap.find_erase_self]
        · intro k hk
          exact StdMap.find_erase_ne _ _ _ hk

/-! ## Lemmas on the lists of names and paths -/

/-- The first occurrences hold the same strings as the list. -/
theorem mem_firstOccurrences (l : List String) (x : String) :
    x ∈ firstOccurrences l ↔ x ∈ l := by
  induction l with
  | nil => simp [firstOccurrences]
  | cons a rest ih =>
    simp only [firstOccurrences, List.mem_cons, List.mem_filter, ih]
    by_cases h : x = a
    · simp [h]
    · simp [h]

/-- The first occurrences hold no string twice. -/
theorem firstOccurrences_nodup (l : List String) : (firstOccurrences l).Nodup := by
  induction l with
  | nil => simp [firstOccurrences]
  | cons a rest ih =>
    simp only [firstOccurrences, List.nodup_cons]
    exact ⟨by simp [List.mem_filter], ih.filter _⟩

/-- The first occurrences keep the order of the list. -/
theorem firstOccurrences_sublist (l : List String) : (firstOccurrences l).Sublist l := by
  induction l with
  | nil => simp [firstOccurrences]
  | cons a rest ih =>
    simp only [firstOccurrences]
    exact ((List.filter_sublist _).trans ih).cons₂ a

/-- The loop that pushes back the missing names appends, in order, the first occurrences of the
names that the list does not hold. -/
theorem pushBackMissing_eq (names : List String) :
    ∀ l : List String,
      pushBackMissing l names = l ++ (firstOccurrences names).filter (fun x => x ∉ l) := by
  induction names with
  | nil => intro l; simp [pushBackMissing, firstOccurrences]
  | cons a rest ih =>
    intro l
    by_cases h : a ∈ l
    · simp only [pushBackMissing, h, not_true_eq_false, if_false, ih, firstOccurrences,
        List.filter_cons, decide_False, decide_True, Bool.not_true, decide_not]
      congr 1
      rw [List.filter_filter]
      apply List.filter_congr
      intro x _
      by_cases hx : x ∈ l
      · simp [hx]
      · have : x ≠ a := fun e => hx (e ▸ h)
        simp [hx, this]
    · simp only [pushBackMissing, h, not_false_eq_true, if_true, ih, firstOccurrences,
        List.filter_cons, decide_True, List.append_assoc, List.singleton_append]
      congr 2
      rw [List.filter_filter]
      apply List.filter_congr
      intro x _
      by_cases hx : x ∈ l
      · simp [hx]
      · by_cases hxa : x = a
        · simp [hx, hxa]
        · simp [hx, hxa]

theorem remove_if_loop_length (leftover : String → String → String) (p : String → Bool)
    (rest : List String) :
    ∀ (kept : List String) (x : String) (stale : List String),
      (remove_if_loop leftover p kept x stale rest).length
        = kept.length + 1 + stale.length + rest.length := by
  induction rest with
  | nil => intro kept x stale; simp [remove_if_loop]; omega
  | cons y rest ih =>
    intro kept x stale
    simp only [remove_if_loop]
    split
    · rw [ih]; simp; omega
    · cases stale with
      | nil => simp only [ih]; simp; omega
      | cons z stale => simp only [ih]; simp; omega

/-- The algorithm `std::remove_if` leaves the number of elements as it is. -/
theorem remove_if_length (leftover : String → String → String) (p : String → Bool)
    (l : List String) : (remove_if leftover p l).length = l.length := by
  unfold remove_if
  split
  · rfl
  · rename_i x rest h
    rw [remove_if_loop_length]
    have h2 := congrArg List.length (List.takeWhile_append_dropWhile (fun e => !p e) l)
    rw [h, List.length_append] at h2
    simp at h2 ⊢
    omega

theorem removeEach_length (leftover : String → String → String) (names : List String) :
    ∀ l : List String, (removeEach leftover l names).length = l.length := by
  induction names with
  | nil => intro l; rfl
  | cons a rest ih =>
    intro l
    simp only [removeEach]
    rw [ih, remove_if_length]

theorem StdMap.index_set_self {V : Type} (dflt v : V) (k : String) (m : StdMap V) :
    (StdMap.index dflt (StdMap.set k v m) k).1 = v := by
  simp [StdMap.index, StdMap.find_set_self]

/-- After `addLibraryNames(lib, names)` the list of `lib` is its candidate list before the call
with the missing names pushed to its back. -/
theorem getLibraryNames_addLibraryNames (lib : String) (names : List String) (s : State σ) :
    (getLibraryNames lib (addLibraryNames lib names s)).1
      = pushBackMissing (candidateNames lib s) names := by
  simp only [getLibraryNames, addLibraryNames, StdMap.index_set_self, candidateNames_eq]

theorem getLibraryNames_removeLibraryNames (leftover : String → String → String) (lib : String)
    (names : List String) (s : State σ) :
    (getLibraryNames lib (removeLibraryNames leftover lib names s)).1
      = removeEach leftover (getLibraryNames lib s).1 names := by
  simp only [getLibraryNames, removeLibraryNames, StdMap.index_set_self]

/-- The pattern occurs in the string exactly when `rfind` does not answer `npos`. -/
theorem rfind_ne_none_iff_occurs (s pat : String) :
    rfind s pat ≠ none ↔ ∃ pre post : String, s = pre ++ pat ++ post := by
  constructor
  · intro h
    cases hr : rfind s pat with
    | none => exact absurd hr h
    | some pos =>
      obtain ⟨-, ⟨t, ht⟩, -⟩ := (rfind_some_iff s pat pos).mp hr
      refine ⟨⟨s.data.take pos⟩, ⟨t⟩, ?_⟩
      apply String.ext
      simp only [String.data_append]
      rw [List.append_assoc, ht, List.take_append_drop]
  · rintro ⟨pre, post, rfl⟩ hnone
    refine (rfind_none_iff _ pat).mp hnone pre.length ?_ ?_
    · simp only [String.length_append]
      omega
    · simp only [String.data_append, List.append_assoc]
      show pat.data <+: List.drop pre.data.length (pre.data ++ (pat.data ++ post.data))
      rw [List.drop_left]
      exact List.prefix_append _ _

/-! ## The native handles of the registry -/

/-- The method `DllObject::unload` returns `!handle`. -/
theorem DllObject.unload_flag (P : Platform) (L : Loader σ) (d : DllObject) (w : World σ) :
    (d.unload P L w).1 = decide ((d.unload P L w).2.1.handle = 0) := by
  cases P
  · simp only [DllObject.unload]
    split <;> split <;> simp
  all_goals
    simp only [DllObject.unload]
    split
    · split <;> simp
    · simp

theorem Heap.get_put_ne (h : Heap) {p q : Nat} (d : DllObject) (hne : q ≠ p) :
    Heap.get (Heap.put p d h) q = Heap.get h q := by
  induction h with
  | nil => simp [Heap.put, Heap.get]
  | cons e h ih =>
    obtain ⟨a, d₀⟩ := e
    by_cases ha : a = p
    · subst ha
      have hq : ¬ a = q := fun e => hne e.symm
      simp [Heap.put, Heap.get, hq, ih]
    · by_cases hq : a = q
      · subst hq
        simp [Heap.put, Heap.get, ha]
      · simp [Heap.put, Heap.get, ha, hq, ih]

/-- The function `load` keeps the native handles of the registry non-null. -/
theorem load_preserves_AllOpen (P : Platform) (L : Loader σ) (dllname : String)
    (s s' : State σ) (r : Bool) (hop : s.AllOpen)
    (h : load P L dllname s = some (r, s')) : s'.AllOpen := by
  by_cases hlib : library dllname s = 0
  · obtain ⟨r₀, obj, w', evs, hl, -, -, hok, -⟩ :=
      loadLoop_opens P L (candidateNames dllname s) DllObject.new s.world
    rw [load_of_loop P L dllname s hlib hl] at h
    simp only [Option.some.injEq, Prod.mk.injEq] at h
    obtain ⟨rfl, rfl⟩ := h
    cases r₀ with
    | false => exact hop
    | true =>
      obtain ⟨fails, last, -, -, h3, h4, -⟩ := hok rfl
      intro e he
      rcases StdMap.mem_set he with h | h
      · subst h
        exact ⟨obj, by simp [Heap.get], by rw [h4]; exact h3⟩
      · obtain ⟨o, ho, hh⟩ := hop e h
        have hne : Heap.fresh s.heap ≠ e.2 := by
          intro heq
          rw [← heq, Heap.get_fresh] at ho
          simp at ho
        exact ⟨o, by simpa [Heap.get, hne] using ho, hh⟩
  · rw [load_of_loaded P L dllname s hlib] at h
    simp only [Option.some.injEq, Prod.mk.injEq] at h
    obtain ⟨-, rfl⟩ := h
    exact hop

/-- The function `unload` keeps the native handles of the registry non-null. -/
theorem unload_preserves_AllOpen (P : Platform) (L : Loader σ) (dllname : String)
    (s s' : State σ) (r : Bool) (hwf : s.WF) (hop : s.AllOpen)
    (h : unload P L dllname s = some (r, s')) : s'.AllOpen := by
  cases hf : StdMap.find s.sDllMap dllname with
  | none =>
    simp [unload, library, hf] at h
    obtain ⟨-, rfl⟩ := h
    exact hop
  | some p =>
    have hp : library dllname s = p := by simp [library, hf]
    by_cases hp0 : p = 0
    · simp [unload, hp, hp0] at h
      obtain ⟨-, rfl⟩ := h
      exact hop
    · have hmem := StdMap.mem_of_find hf
      cases hg : Heap.get s.heap p with
      | none => simp [unload, hp, hp0, hg] at h
      | some obj =>
        cases hu : (obj.unload P L s.world).1 with
        | false =>
          have hflag := DllObject.unload_flag P L obj s.world
          rw [hu] at hflag
          have hnz : (obj.unload P L s.world).2.1.handle ≠ 0 := by
            intro h0
            simp [h0] at hflag
          simp [unload, hp, hp0, hg, hu] at h
          obtain ⟨-, rfl⟩ := h
          intro e he
          by_cases hep : e.2 = p
          · exact ⟨_, by rw [hep]; exact Heap.get_put_self _ hg, hnz⟩
          · obtain ⟨o, ho, hh⟩ := hop e he
            exact ⟨o, by rw [Heap.get_put_ne _ _ hep]; exact ho, hh⟩
        | true =>
          have hfi := StdMap.find_if_value hwf.1 hmem
          simp [unload, hp, hp0, hg, hu, hfi] at h
          obtain ⟨-, rfl⟩ := h
          intro e he
          have he' : e ∈ s.sDllMap ∧ e.1 ≠ dllname := by
            simpa [StdMap.erase] using he
          have hne : e.2 ≠ p := by
            intro heq
            have hinj := List.inj_on_of_nodup_map hwf.1 he'.1 hmem heq
            exact he'.2 (congrArg Prod.fst hinj)
          obtain ⟨o, ho, hh⟩ := hop e he'.1
          exact ⟨o, by rw [Heap.get_free_ne _ hne]; exact ho, hh⟩

/-- The function `testLoad` keeps the native handles of the registry non-null. -/
theorem testLoad_preserves_AllOpen (P : Platform) (L : Loader σ) (dllname : String)
    (s s' : State σ) (r : Bool) (hop : s.AllOpen)
    (h : testLoad P L dllname s = some (r, s')) : s'.AllOpen := by
  unfold testLoad at h
  split at h
  · simp only [Option.some.injEq, Prod.mk.injEq] at h
    obtain ⟨-, rfl⟩ := h
    exact hop
  · exact load_preserves_AllOpen P L dllname s s' r hop h

/-- Every state reached by loading and unloading satisfies both invariants of the registry. -/
theorem LoadReachable.invariants {P : Platform} {L : Loader σ} {s : State σ}
    (h : LoadReachable P L s) : s.WF ∧ s.AllOpen := by
  induction h with
  | start s h0 => simp [State.WF, State.AllOpen, h0]
  | load dllname r _ hl ih =>
    exact ⟨load_preserves_WF P L dllname _ _ r ih.1 hl,
      load_preserves_AllOpen P L dllname _ _ r ih.2 hl⟩
  | testLoad dllname r _ hl ih =>
    exact ⟨testLoad_preserves_WF P L dllname _ _ r ih.1 hl,
      testLoad_preserves_AllOpen P L dllname _ _ r ih.2 hl⟩
  | unload dllname r _ hl ih =>
    exact ⟨unload_preserves_WF P L dllname _ _ r ih.1 hl,
      unload_preserves_AllOpen P L dllname _ _ r ih.1 ih.2 hl⟩
  | configure dirs names _ ih => exact ih

/-! ## The claims -/

/-- C1. When `dllname` has no handle yet, `load(dllname)` returns, and the native opens it
makes are, in order, an initial segment of the paths of the candidate list: the alias list of
`dllname`, or `dllname` alone when that list is empty, each name (read as the C string the code
passes on) going through `setFileName` and `DllObject::load`. Every recorded result is the
answer of the loader. `load` returns true exactly when one of these opens succeeds; then every
open before the last one failed, the last one succeeded, and the handle object stored under
`dllname` holds the handle and the path of that last open, so that nothing after the first
success is passed to the loader. It returns false only after every path was tried, and then
`sDllMap` is unchanged. -/
theorem load_walks_candidates (P : Platform) (L : Loader σ) (dllname : String) (s : State σ)
    (hnot : library dllname s = 0) :
    ∃ r s' evs, load P L dllname s = some (r, s') ∧ s'.world.trace = s.world.trace ++ evs ∧
      (∀ o ∈ evs.filterMap Call.opened, ∃ w0 : World σ, o.2 = (w0.openLibrary P L o.1).1) ∧
      (r = true ↔ ∃ o ∈ evs.filterMap Call.opened, o.2 ≠ 0) ∧
      (r = true →
        ∃ fails last obj, evs.filterMap Call.opened = fails ++ [last] ∧
          (∀ o ∈ fails, o.2 = 0) ∧ last.2 ≠ 0 ∧
          (fails ++ [last]).map Prod.fst <+: attemptList P (candidateNames dllname s) ∧
          library dllname s' ≠ 0 ∧ Heap.get s'.heap (library dllname s') = some obj ∧
          obj.handle = last.2 ∧ obj.file = last.1) ∧
      (r = false →
        (evs.filterMap Call.opened).map Prod.fst = attemptList P (candidateNames dllname s) ∧
          s'.sDllMap = s.sDllMap) := by
  obtain ⟨r, obj, w', evs, hl, ht, hgen, hok, hfail⟩ :=
    loadLoop_opens P L (candidateNames dllname s) DllObject.new s.world
  refine ⟨r, _, evs, load_of_loop P L dllname s hnot hl, ?_, hgen, ?_, ?_, ?_⟩
  · cases r <;> simpa using ht
  · constructor
    · intro hr
      obtain ⟨fails, last, h1, -, h3, -, -⟩ := hok hr
      exact ⟨last, by simp [h1], h3⟩
    · rintro ⟨o, ho, hne⟩
      cases r with
      | true => rfl
      | false => exact absurd ((hfail rfl).2 o ho) hne
  · intro hr
    subst hr
    obtain ⟨fails, last, h1, h2, h3, h4, h5⟩ := hok rfl
    refine ⟨fails, last, obj, h1, h2, h3, h5, ?_, ?_, ?_, ?_⟩
    · simp only [if_true]
      rw [library_set_self]
      exact Heap.fresh_ne_zero _
    · simp only [if_true]
      rw [library_set_self]
      simp [Heap.get]
    · rw [h4]
    · rw [h4]
  · intro hr
    subst hr
    exact ⟨(hfail rfl).1, by simp⟩

/-- Witness for C1 on the sample platform: `media` with the candidate names `nope`, `foo`. -/
theorem load_walks_candidates_witness :
    library "media" sampleAliasState = 0 ∧
      (load Platform.Q_OS_OTHER sampleLoader "media" sampleAliasState).map
          (fun r => (r.1, r.2.sDllMap, r.2.heap, r.2.world.trace)) =
        some (true, [("media", 1)], [(1, ⟨"libfoo.so", 7, ""⟩)],
          [Call.dlopen "nope.so" 0, Call.dlerror "cannot open shared object file",
           Call.dlopen "libnope.so" 0, Call.dlerror "cannot open shared object file",
           Call.dlopen "foo.so" 0, Call.dlerror "cannot open shared object file",
           Call.dlopen "libfoo.so" 7]) ∧
      ∃ r s' evs, load Platform.Q_OS_OTHER sampleLoader "media" sampleAliasState = some (r, s') ∧
        s'.world.trace = sampleAliasState.world.trace ++ evs ∧
        (r = true ↔ ∃ o ∈ evs.filterMap Call.opened, o.2 ≠ 0) :=
  ⟨rfl, rfl,
    match load_walks_candidates Platform.Q_OS_OTHER sampleLoader "media" sampleAliasState rfl with
    | ⟨r, s', evs, h1, h2, _, h4, _⟩ => ⟨r, s', evs, h1, h2, h4⟩⟩

/-- C2. When `load(dllname)` returns true and leaves the state `s1`, a second
`load(dllname)` returns true and leaves exactly `s1`: no registry changes, the loader state is
untouched and no native call is added to the trace. When `dllname` had no handle before the
first call, the two calls together make exactly one successful native open. -/
theorem load_twice_opens_once (P : Platform) (L : Loader σ) (dllname : String)
    (s s1 : State σ) (h1 : load P L dllname s = some (true, s1)) :
    load P L dllname s1 = some (true, s1) ∧
      (library dllname s = 0 →
        ∃ evs, s1.world.trace = s.world.trace ++ evs ∧
          ((evs.filterMap Call.opened).filter (fun o => o.2 ≠ 0)).length = 1) := by
  by_cases hlib : library dllname s = 0
  · obtain ⟨r, obj, w', evs, hl, ht, -, hok, -⟩ :=
      loadLoop_opens P L (candidateNames dllname s) DllObject.new s.world
    have h2 := load_of_loop P L dllname s hlib hl
    rw [h2] at h1
    simp only [Option.some.injEq, Prod.mk.injEq] at h1
    obtain ⟨hr, hs⟩ := h1
    subst hr
    simp only [if_true] at hs
    subst hs
    refine ⟨?_, fun _ => ⟨evs, ht, ?_⟩⟩
    · apply load_of_loaded
      rw [library_set_self]
      exact Heap.fresh_ne_zero _
    · obtain ⟨fails, last, g1, g2, g3, -, -⟩ := hok rfl
      have hf : fails.filter (fun o => o.2 ≠ 0) = [] := by
        rw [List.filter_eq_nil_iff]
        intro o ho
        simp [g2 o ho]
      rw [g1, List.filter_append, hf]
      simp [g3]
  · have h2 := load_of_loaded P L dllname s hlib
    rw [h2] at h1
    simp only [Option.some.injEq, Prod.mk.injEq, true_and] at h1
    subst h1
    exact ⟨h2, fun h => absurd h hlib⟩

/-- Witness for C2 on the sample platform: `load("foo")` twice from program start. -/
theorem load_twice_opens_once_witness :
    load Platform.Q_OS_OTHER sampleLoader "foo" (State.init 0) = some (true, sampleLoadedState) ∧
      load Platform.Q_OS_OTHER sampleLoader "foo" sampleLoadedState = some (true, sampleLoadedState) :=
  ⟨rfl, (load_twice_opens_once Platform.Q_OS_OTHER sampleLoader "foo" (State.init 0) sampleLoadedState
    rfl).1⟩

/-- C3. When `dllname` has no handle and the platform opens none of the paths of its
candidate names (neither the stored file name nor the one with the `lib` prefix), whatever
the loader state, `load(dllname)` returns false, `sDllMap` and the live handle objects are what
they were, and `library(dllname)` is null afterwards. -/
theorem load_fails_when_nothing_opens (P : Platform) (L : Loader σ) (dllname : String)
    (s : State σ) (hnot : library dllname s = 0)
    (hnone : ∀ (w : World σ), ∀ path ∈ attemptList P (candidateNames dllname s),
      (w.openLibrary P L path).1 = 0) :
    ∃ s', load P L dllname s = some (false, s') ∧ s'.sDllMap = s.sDllMap ∧
      s'.heap = s.heap ∧ library dllname s' = 0 := by
  obtain ⟨r, obj, w', evs, hl, -, hgen, hok, -⟩ :=
    loadLoop_opens P L (candidateNames dllname s) DllObject.new s.world
  have h2 := load_of_loop P L dllname s hnot hl
  cases r with
  | false =>
    refine ⟨_, h2, ?_, ?_, ?_⟩
    · simp
    · simp
    · simpa [library] using hnot
  | true =>
    exfalso
    obtain ⟨fails, last, g1, -, g3, -, g5⟩ := hok rfl
    have hmem : last ∈ evs.filterMap Call.opened := by simp [g1]
    obtain ⟨w0, hw0⟩ := hgen last hmem
    have hpath : last.1 ∈ attemptList P (candidateNames dllname s) := by
      apply g5.subset
      simp
    exact g3 (hw0.trans (hnone w0 last.1 hpath))

/-- Witness for C3 on the sample platform: the candidate names `nope1`, `nope2` of `mylib`
do not exist. -/
theorem load_fails_when_nothing_opens_witness :
    library "mylib" sampleNopeState = 0 ∧
      candidateNames "mylib" sampleNopeState = ["nope1", "nope2"] ∧
      attemptList Platform.Q_OS_OTHER (candidateNames "mylib" sampleNopeState)
        = ["nope1.so", "libnope1.so", "nope2.so", "libnope2.so"] ∧
      ∃ s', load Platform.Q_OS_OTHER sampleLoader "mylib" sampleNopeState = some (false, s') ∧
        s'.sDllMap = sampleNopeState.sDllMap ∧ s'.heap = sampleNopeState.heap ∧
        library "mylib" s' = 0 :=
  ⟨rfl, rfl, rfl,
    load_fails_when_nothing_opens Platform.Q_OS_OTHER sampleLoader "mylib" sampleNopeState rfl
      (by
        intro w path hpath
        have hl : attemptList Platform.Q_OS_OTHER (candidateNames "mylib" sampleNopeState)
            = ["nope1.so", "libnope1.so", "nope2.so", "libnope2.so"] := rfl
        rw [hl] at hpath
        simp only [List.mem_cons, List.mem_singleton, List.not_mem_nil, or_false] at hpath
        rcases hpath with h | h | h | h <;> subst h <;>
          simp [World.openLibrary, World.dlopen, sampleLoader, sample_dlopen])⟩

/-- C4. In every state the program can be in, let `dllname` have a handle. When
`DllObject::unload` of that handle fails, `unload(dllname)` returns false,
`library(dllname)` is the same pointer, `sDllMap` is unchanged and the handle object is the one
left by the failed `DllObject::unload`. When it succeeds, `unload(dllname)` returns true,
`library(dllname)` is null afterwards and every other identifier keeps its entry. -/
theorem unload_active_handle (P : Platform) (L : Loader σ) (dllname : String) (s : State σ)
    (hreach : Reachable P L s) (hlib : library dllname s ≠ 0) :
    ∃ obj, Heap.get s.heap (library dllname s) = some obj ∧
      ((obj.unload P L s.world).1 = false →
        ∃ s', unload P L dllname s = some (false, s') ∧
          library dllname s' = library dllname s ∧ s'.sDllMap = s.sDllMap ∧
          Heap.get s'.heap (library dllname s) = some (obj.unload P L s.world).2.1) ∧
      ((obj.unload P L s.world).1 = true →
        ∃ s', unload P L dllname s = some (true, s') ∧ library dllname s' = 0 ∧
          ∀ k, k ≠ dllname → StdMap.find s'.sDllMap k = StdMap.find s.sDllMap k) :=
  unload_of_WF P L dllname s hreach.WF hlib

/-- Witness for C4 on the state reached by `load("foo")` from program start: `unload("foo")`
succeeds on the sample platform and fails on the platform whose `dlclose` fails. -/
theorem unload_active_handle_witness :
    Reachable Platform.Q_OS_OTHER sampleLoader sampleLoadedState ∧
      library "foo" sampleLoadedState ≠ 0 ∧
      (unload Platform.Q_OS_OTHER sampleLoader "foo" sampleLoadedState).map
          (fun r => (r.1, r.2.sDllMap, r.2.heap)) = some (true, [], []) ∧
      (unload Platform.Q_OS_OTHER busyLoader "foo" sampleLoadedState).map
          (fun r => (r.1, r.2.sDllMap, r.2.heap)) =
        some (false, [("foo", 1)], [(1, ⟨"libfoo.so", 7, "cannot open shared object file"⟩)]) ∧
      (∃ obj, Heap.get sampleLoadedState.heap (library "foo" sampleLoadedState) = some obj ∧
        ((obj.unload Platform.Q_OS_OTHER sampleLoader sampleLoadedState.world).1 = true →
          ∃ s', unload Platform.Q_OS_OTHER sampleLoader "foo" sampleLoadedState
              = some (true, s') ∧ library "foo" s' = 0)) ∧
      (∃ obj, Heap.get sampleLoadedState.heap (library "foo" sampleLoadedState) = some obj ∧
        ((obj.unload Platform.Q_OS_OTHER busyLoader sampleLoadedState.world).1 = false →
          ∃ s', unload Platform.Q_OS_OTHER busyLoader "foo" sampleLoadedState
              = some (false, s') ∧ library "foo" s' = library "foo" sampleLoadedState)) :=
  ⟨Reachable.load "foo" true (Reachable.init 0) rfl, by decide, rfl, rfl,
    match unload_active_handle Platform.Q_OS_OTHER sampleLoader "foo" sampleLoadedState
      (Reachable.load "foo" true (Reachable.init 0) rfl) (by decide) with
    | ⟨obj, h1, _, h3⟩ =>
      ⟨obj, h1, fun h => match h3 h with | ⟨s', g1, g2, _⟩ => ⟨s', g1, g2⟩⟩,
    match unload_active_handle Platform.Q_OS_OTHER busyLoader "foo" sampleLoadedState
      (Reachable.load "foo" true (Reachable.init 0) rfl) (by decide) with
    | ⟨obj, h1, h2, _⟩ =>
      ⟨obj, h1, fun h => match h2 h with | ⟨s', g1, g2, _⟩ => ⟨s', g1, g2⟩⟩⟩

/-- C5. When `dllname` has no handle, `unload(dllname)` returns true and leaves the whole state
as it was: the three registries, the handle objects, the loader state and the trace of native
calls. -/
theorem unload_not_loaded (P : Platform) (L : Loader σ) (dllname : String) (s : State σ)
    (h : library dllname s = 0) : unload P L dllname s = some (true, s) := by
  simp [unload, h]

/-- Witness for C5: `unload("foo")` at program start. -/
theorem unload_not_loaded_witness :
    library "foo" (State.init 0) = 0 ∧
      unload Platform.Q_OS_OTHER sampleLoader "foo" (State.init 0) = some (true, State.init 0) :=
  ⟨rfl, unload_not_loaded Platform.Q_OS_OTHER sampleLoader "foo" (State.init 0) rfl⟩

/-- C6. `testLoad(dllname)` returns true and leaves the state untouched (so makes no native
call) when `dllname` has a handle, and otherwise is `load(dllname)`; from every state the two
functions return the same value and leave the same state, and `load` does return. -/
theorem testLoad_same_as_load (P : Platform) (L : Loader σ) (dllname : String) (s : State σ) :
    (library dllname s ≠ 0 → testLoad P L dllname s = some (true, s)) ∧
      (library dllname s = 0 → testLoad P L dllname s = load P L dllname s) ∧
      testLoad P L dllname s = load P L dllname s ∧
      ∃ r s', load P L dllname s = some (r, s') := by
  refine ⟨?_, ?_, ?_, ?_⟩
  · intro h
    simp [testLoad, h]
  · intro h
    simp [testLoad, h]
  · by_cases h : library dllname s = 0
    · simp [testLoad, h]
    · simp [testLoad, h, load_of_loaded P L dllname s h]
  · by_cases h : library dllname s = 0
    · obtain ⟨r, obj, w', evs, hl, -⟩ :=
        loadLoop_opens P L (candidateNames dllname s) DllObject.new s.world
      exact ⟨r, _, load_of_loop P L dllname s h hl⟩
    · exact ⟨true, s, load_of_loaded P L dllname s h⟩

/-- Witness for C6: `testLoad("foo")` at program start loads `libfoo.so`, as `load` does. -/
theorem testLoad_same_as_load_witness :
    testLoad Platform.Q_OS_OTHER sampleLoader "foo" (State.init 0) = some (true, sampleLoadedState) ∧
      testLoad Platform.Q_OS_OTHER sampleLoader "foo" (State.init 0)
        = load Platform.Q_OS_OTHER sampleLoader "foo" (State.init 0) :=
  ⟨rfl, (testLoad_same_as_load Platform.Q_OS_OTHER sampleLoader "foo" (State.init 0)).2.2.1⟩

/-- C9, evaluated on the code: with the suffix `.so`, the last occurrence of the suffix in
`x.sox` is at position 1, not at the end, and is followed by `x`; all the same
`setFileName("x.sox")` stores `x.sox`, and `setFileName("libx.sox")` stores `libx.sox`: the
suffix is not appended. -/
theorem setFileName_sox_unchanged :
    rfind "x.sox" (kDllSuffix Platform.Q_OS_OTHER) = some 1 ∧
    "x.sox".data.get? (1 + (kDllSuffix Platform.Q_OS_OTHER).length) = some 'x' ∧
    (DllObject.new.setFileName Platform.Q_OS_OTHER "x.sox").map DllObject.file = some "x.sox" ∧
    (DllObject.new.setFileName Platform.Q_OS_OTHER "libx.sox").map DllObject.file
      = some "libx.sox" :=
  ⟨rfl, rfl, rfl, rfl⟩

/-- C10. When `name` ends in the platform suffix, or the last occurrence of the suffix in
`name` (the position `rfind` answers, see `rfind_some_iff`) is followed by the character `.`,
`setFileName(name)` stores `name` unmodified. -/
theorem setFileName_keeps_suffixed (P : Platform) (name : String) (d : DllObject)
    (h : (∃ stem : String, name = stem ++ kDllSuffix P) ∨
      (∃ pos, rfind name (kDllSuffix P) = some pos ∧
        name.data.get? (pos + (kDllSuffix P).length) = some '.')) :
    d.setFileName P name = some { d with file := name } := by
  rw [DllObject.setFileName_eq, storedFileName_eq]
  rcases h with ⟨stem, hstem⟩ | ⟨pos, hpos, -⟩
  · cases hr : rfind name (kDllSuffix P) with
    | some pos => rfl
    | none =>
      exfalso
      refine (rfind_none_iff name (kDllSuffix P)).mp hr stem.length ?_ ?_
      · rw [hstem]
        simp
      · rw [hstem]
        simp
  · rw [hpos]

/-- Witness for C10: `libx.so.1` with the suffix `.so`. -/
theorem setFileName_keeps_suffixed_witness :
    rfind "libx.so.1" (kDllSuffix Platform.Q_OS_OTHER) = some 4 ∧
      "libx.so.1".data.get? (4 + (kDllSuffix Platform.Q_OS_OTHER).length) = some '.' ∧
      DllObject.new.setFileName Platform.Q_OS_OTHER "libx.so.1" = some ⟨"libx.so.1", 0, ""⟩ :=
  ⟨rfl, rfl,
    setFileName_keeps_suffixed Platform.Q_OS_OTHER "libx.so.1" DllObject.new (Or.inr ⟨4, rfl, rfl⟩)⟩

/-- C11. Canonicalizing a file name twice gives the same as once: for every name, the empty one
included, `setFileName(name)` stores a file name in the handle object (it does not throw), and
`setFileName` of that file name on that handle object leaves the object as it is, in every
configuration. -/
theorem setFileName_idempotent (P : Platform) (name : String) (d : DllObject) :
    ∃ d1, d.setFileName P name = some d1 ∧ d1.setFileName P d1.file = some d1 := by
  refine ⟨{ d with file := storedFileName P name }, DllObject.setFileName_eq P name d, ?_⟩
  rw [DllObject.setFileName_eq]
  have hfix : storedFileName P (storedFileName P name) = storedFileName P name := by
    have hocc : rfind (storedFileName P name) (kDllSuffix P) ≠ none := by
      rw [rfind_ne_none_iff_occurs, storedFileName_eq]
      cases hr : rfind name (kDllSuffix P) with
      | none => exact ⟨name, "", by simp⟩
      | some pos =>
        exact (rfind_ne_none_iff_occurs name (kDllSuffix P)).mp (by simp [hr])
    cases hr : rfind (storedFileName P name) (kDllSuffix P) with
    | none => exact absurd hr hocc
    | some pos => rw [storedFileName_eq P (storedFileName P name), hr]
  simp only [hfix]

/-- Witness for C11: the empty name, the name `.so`, `x.sox` and `x` with the suffix `.so`. -/
theorem setFileName_idempotent_witness :
    DllObject.new.setFileName Platform.Q_OS_OTHER "" = some ⟨".so", 0, ""⟩ ∧
      (⟨".so", 0, ""⟩ : DllObject).setFileName Platform.Q_OS_OTHER ".so" = some ⟨".so", 0, ""⟩ ∧
      DllObject.new.setFileName Platform.Q_OS_OTHER "x.sox" = some ⟨"x.sox", 0, ""⟩ ∧
      ∃ d1, DllObject.new.setFileName Platform.Q_OS_OTHER "x" = some d1 ∧
        d1.setFileName Platform.Q_OS_OTHER d1.file = some d1 :=
  ⟨rfl, rfl, rfl, setFileName_idempotent Platform.Q_OS_OTHER "x" DllObject.new⟩

/-- C12. When the list of `lib` is empty, after `addLibraryNames(lib, names)`
`getLibraryNames(lib)` is `lib` followed by the entries of `names` in their order, each one
only where it occurs first and none equal to `lib`; the result holds no string twice. -/
theorem addLibraryNames_on_empty_list (lib : String) (names : List String) (s : State σ)
    (h : (getLibraryNames lib s).1 = []) :
    (getLibraryNames lib (addLibraryNames lib names s)).1
        = lib :: (firstOccurrences names).filter (fun x => x ≠ lib) ∧
      ((getLibraryNames lib (addLibraryNames lib names s)).1).Nodup := by
  have hc : candidateNames lib s = [lib] := by simp [candidateNames, h]
  have he : (getLibraryNames lib (addLibraryNames lib names s)).1
      = lib :: (firstOccurrences names).filter (fun x => x ≠ lib) := by
    rw [getLibraryNames_addLibraryNames, pushBackMissing_eq, hc]
    simp
  refine ⟨he, ?_⟩
  rw [he, List.nodup_cons]
  exact ⟨by simp [List.mem_filter], (firstOccurrences_nodup names).filter _⟩

/-- Witness for C12: `x` with the names `a`, `b`, and `a` added once more. -/
theorem addLibraryNames_on_empty_list_witness :
    (getLibraryNames "x" (State.init (0 : Nat))).1 = [] ∧
      (getLibraryNames "x" (addLibraryNames "x" ["a", "b"] (State.init (0 : Nat)))).1
        = ["x", "a", "b"] ∧
      (getLibraryNames "x" (addLibraryNames "x" ["a"]
        (addLibraryNames "x" ["a", "b"] (State.init (0 : Nat))))).1 = ["x", "a", "b"] ∧
      ((getLibraryNames "x" (addLibraryNames "x" ["a", "b"] (State.init (0 : Nat)))).1).Nodup :=
  ⟨rfl, (addLibraryNames_on_empty_list "x" ["a", "b"] (State.init (0 : Nat)) rfl).1, rfl,
    (addLibraryNames_on_empty_list "x" ["a", "b"] (State.init (0 : Nat)) rfl).2⟩

/-- C13, evaluated on the code: from the list `x`, `a`, `b` of `x`,
`removeLibraryNames("x", {"a"})` leaves a list of three entries, `x`, `b` and what the
assignment of `std::remove_if` left in the third place (`b` again when it copies), and not the
list `x`, `b`: nothing is erased. -/
theorem removeLibraryNames_keeps_three (leftover : String → String → String) :
    (getLibraryNames "x" (addLibraryNames "x" ["a", "b"] (State.init (0 : Nat)))).1
        = ["x", "a", "b"] ∧
      (getLibraryNames "x" (removeLibraryNames leftover "x" ["a"]
          (addLibraryNames "x" ["a", "b"] (State.init (0 : Nat))))).1
        = ["x", "b", leftover "a" "b"] :=
  ⟨rfl, rfl⟩

/-- C14 fails as stated: `addLibraryNames("x", {"a", "a"})` on an empty list gives `x`, `a`; the
second `a` is found in the list to which the first was pushed, and is skipped. The list in
which every name absent before the call is appended as often as it occurs would be
`x`, `a`, `a`. -/
theorem addLibraryNames_repeated_name_once :
    (getLibraryNames "x" (addLibraryNames "x" ["a", "a"] (State.init (0 : Nat)))).1 = ["x", "a"] ∧
      (getLibraryNames "x" (addLibraryNames "x" ["a", "a"] (State.init (0 : Nat)))).1
        ≠ candidateNames "x" (State.init (0 : Nat))
            ++ ["a", "a"].filter (fun n => n ∉ candidateNames "x" (State.init (0 : Nat))) := by
  constructor
  · rfl
  · decide

/-- C14, amended. `addLibraryNames(lib, names)` appends to the candidate list of `lib` (its
list, or `lib` alone when the list is empty) the first occurrences of the names that are not in
that list: a name is skipped when it was in the list before the call or was appended earlier in
the call, so a name that is absent from the list is appended once, however often it occurs in
`names`. -/
theorem addLibraryNames_skips_present (lib : String) (names : List String) (s : State σ) :
    (getLibraryNames lib (addLibraryNames lib names s)).1
        = candidateNames lib s
            ++ (firstOccurrences names).filter (fun x => x ∉ candidateNames lib s) ∧
      ∀ x ∈ names, x ∉ candidateNames lib s →
        ((getLibraryNames lib (addLibraryNames lib names s)).1).count x = 1 := by
  have he : (getLibraryNames lib (addLibraryNames lib names s)).1
      = candidateNames lib s
          ++ (firstOccurrences names).filter (fun x => x ∉ candidateNames lib s) := by
    rw [getLibraryNames_addLibraryNames, pushBackMissing_eq]
  refine ⟨he, ?_⟩
  intro x hx hnot
  rw [he, List.count_append, List.count_eq_zero_of_not_mem hnot, Nat.zero_add]
  apply List.count_eq_one_of_mem ((firstOccurrences_nodup names).filter _)
  simp [List.mem_filter, mem_firstOccurrences, hx, hnot]

/-- Witness for the amended C14: `b` and `a` are added to the list `x`, `a` of `x`; `b` occurs
twice among the names and once in the result. -/
theorem addLibraryNames_skips_present_witness :
    (getLibraryNames "x" (addLibraryNames "x" ["b", "a", "b", "x"]
      (setLibraryNames "x" ["x", "a"] (State.init (0 : Nat))))).1 = ["x", "a", "b"] :=
  (addLibraryNames_skips_present "x" ["b", "a", "b", "x"]
    (setLibraryNames "x" ["x", "a"] (State.init (0 : Nat)))).1

/-- C15. After `addSearchPaths(paths)` `getSearchPaths()` is the old list followed, in their
order, by the entries of `paths` that are not in the old list, each one only where it occurs
first; the old list is a prefix of the new one, and an entry of the old list occurs in the new
one as often as before. -/
theorem addSearchPaths_appends_new (paths : List String) (s : State σ) :
    getSearchPaths (addSearchPaths paths s)
        = getSearchPaths s
            ++ (firstOccurrences paths).filter (fun x => x ∉ getSearchPaths s) ∧
      getSearchPaths s <+: getSearchPaths (addSearchPaths paths s) ∧
      ∀ x ∈ getSearchPaths s,
        (getSearchPaths (addSearchPaths paths s)).count x = (getSearchPaths s).count x := by
  have he : getSearchPaths (addSearchPaths paths s)
      = getSearchPaths s
          ++ (firstOccurrences paths).filter (fun x => x ∉ getSearchPaths s) := by
    simp only [getSearchPaths, addSearchPaths, pushBackMissing_eq]
  refine ⟨he, ?_, ?_⟩
  · rw [he]
    exact List.prefix_append _ _
  · intro x hx
    have hz : ((firstOccurrences paths).filter (fun x => x ∉ getSearchPaths s)).count x = 0 :=
      List.count_eq_zero_of_not_mem (by simp [List.mem_filter, hx])
    rw [he, List.count_append, hz, Nat.add_zero]

/-- Witness for C15: `b`, `c`, `a`, `c` are added to the search paths `a`, `b`. -/
theorem addSearchPaths_appends_new_witness :
    getSearchPaths (addSearchPaths ["b", "c", "a", "c"]
      (setSearchPaths ["a", "b"] (State.init (0 : Nat)))) = ["a", "b", "c"] :=
  (addSearchPaths_appends_new ["b", "c", "a", "c"]
    (setSearchPaths ["a", "b"] (State.init (0 : Nat)))).1

/-- C16, evaluated on the code: `removeSearchPaths({"a"})` on the list `a` leaves `a` in the
list, and on the list `a`, `b` it leaves two entries, `b` and what the assignment of
`std::remove_if` left behind: nothing is erased. -/
theorem removeSearchPaths_keeps_entry (leftover : String → String → String) :
    getSearchPaths (removeSearchPaths leftover ["a"] (setSearchPaths ["a"] (State.init (0 : Nat))))
        = ["a"] ∧
      getSearchPaths (removeSearchPaths leftover ["a"]
          (setSearchPaths ["a", "b"] (State.init (0 : Nat))))
        = ["b", leftover "a" "b"] :=
  ⟨rfl, rfl⟩

/-- C17 fails as stated: from the empty list, `setSearchPaths({"a", "a"})` leaves `a` twice in
`getSearchPaths()`. -/
theorem setSearchPaths_keeps_duplicates :
    (State.init (0 : Nat)).sLibDirs = [] ∧
      getSearchPaths (setSearchPaths ["a", "a"] (State.init (0 : Nat))) = ["a", "a"] ∧
      ¬ (getSearchPaths (setSearchPaths ["a", "a"] (State.init (0 : Nat)))).Nodup := by
  refine ⟨rfl, rfl, ?_⟩
  simp [getSearchPaths, setSearchPaths]

/-- C17, amended. From an empty list, after any sequence of calls of `setSearchPaths` with
arguments that hold no string twice and of `addSearchPaths` with any arguments,
`getSearchPaths()` holds no string twice. -/
theorem searchPaths_nodup (s : State σ) (h : PathsReachable s) : (getSearchPaths s).Nodup := by
  induction h with
  | start s h0 => simp [getSearchPaths, h0]
  | set paths hn _ _ => simpa [getSearchPaths, setSearchPaths] using hn
  | add paths _ ih =>
    simp only [getSearchPaths, addSearchPaths, pushBackMissing_eq] at ih ⊢
    rw [List.nodup_append]
    refine ⟨ih, (firstOccurrences_nodup paths).filter _, ?_⟩
    intro x hx hx'
    simp [List.mem_filter] at hx'
    exact hx'.2 hx

/-- Witness for the amended C17: `setSearchPaths({"b", "c"})`, then
`addSearchPaths({"a", "a", "b"})`. -/
theorem searchPaths_nodup_witness :
    PathsReachable (addSearchPaths ["a", "a", "b"] (setSearchPaths ["b", "c"]
        (State.init (0 : Nat)))) ∧
      getSearchPaths (addSearchPaths ["a", "a", "b"] (setSearchPaths ["b", "c"]
        (State.init (0 : Nat)))) = ["b", "c", "a"] ∧
      (getSearchPaths (addSearchPaths ["a", "a", "b"] (setSearchPaths ["b", "c"]
        (State.init (0 : Nat))))).Nodup :=
  ⟨PathsReachable.add _ (PathsReachable.set _ (by decide) (PathsReachable.start _ rfl)), rfl,
    searchPaths_nodup _
      (PathsReachable.add _ (PathsReachable.set _ (by decide) (PathsReachable.start _ rfl)))⟩

/-- C18. `setFileName(name)` stores `name` + suffix when the platform suffix occurs nowhere in
`name`, in particular when `name` is shorter than the suffix, and `name` unchanged when the
suffix occurs somewhere in `name`. For the position that `rfind` answers, the test of line 98,
`suf_pos + kDllSuffix.size() > name.size()`, is false, so the character after the suffix is
never looked at. -/
theorem setFileName_appends_iff_absent (P : Platform) (name : String) (d : DllObject) :
    ((¬ ∃ pre post : String, name = pre ++ kDllSuffix P ++ post) →
        d.setFileName P name = some { d with file := name ++ kDllSuffix P }) ∧
      ((∃ pre post : String, name = pre ++ kDllSuffix P ++ post) →
        d.setFileName P name = some { d with file := name }) ∧
      (name.length < (kDllSuffix P).length →
        d.setFileName P name = some { d with file := name ++ kDllSuffix P }) ∧
      (∀ suf_pos, rfind name (kDllSuffix P) = some suf_pos →
        ¬ (suf_pos + (kDllSuffix P).length > name.length)) := by
  have hocc := rfind_ne_none_iff_occurs name (kDllSuffix P)
  refine ⟨?_, ?_, ?_, ?_⟩
  · intro h
    have hr : rfind name (kDllSuffix P) = none := by
      by_contra hne
      exact h (hocc.mp hne)
    rw [DllObject.setFileName_eq, storedFileName_eq, hr]
  · intro h
    cases hr : rfind name (kDllSuffix P) with
    | none => exact absurd hr (hocc.mpr h)
    | some pos => rw [DllObject.setFileName_eq, storedFileName_eq, hr]
  · intro h
    have hr : rfind name (kDllSuffix P) = none := by
      unfold rfind
      rw [if_neg (by omega)]
    rw [DllObject.setFileName_eq, storedFileName_eq, hr]
  · intro pos hr
    have := rfind_bound hr
    omega

/-- Witness for C18: `x` holds no suffix `.so` and becomes `x.so`; `x.sox` holds one and stays. -/
theorem setFileName_appends_iff_absent_witness :
    (¬ ∃ pre post : String, "x" = pre ++ kDllSuffix Platform.Q_OS_OTHER ++ post) ∧
      DllObject.new.setFileName Platform.Q_OS_OTHER "x" = some ⟨"x.so", 0, ""⟩ ∧
      (∃ pre post : String, "x.sox" = pre ++ kDllSuffix Platform.Q_OS_OTHER ++ post) ∧
      DllObject.new.setFileName Platform.Q_OS_OTHER "x.sox" = some ⟨"x.sox", 0, ""⟩ :=
  have h1 : ¬ ∃ pre post : String, "x" = pre ++ kDllSuffix Platform.Q_OS_OTHER ++ post :=
    fun h => (rfind_ne_none_iff_occurs "x" (kDllSuffix Platform.Q_OS_OTHER)).mpr h rfl
  have h2 : ∃ pre post : String, "x.sox" = pre ++ kDllSuffix Platform.Q_OS_OTHER ++ post :=
    ⟨"x", "x", rfl⟩
  ⟨h1, (setFileName_appends_iff_absent Platform.Q_OS_OTHER "x" DllObject.new).1 h1, h2,
    (setFileName_appends_iff_absent Platform.Q_OS_OTHER "x.sox" DllObject.new).2.1 h2⟩

/-- C19. `removeSearchPaths` and `removeLibraryNames` leave the number of entries as it is,
whatever the assignment of `std::remove_if` leaves in its source: `getSearchPaths()` and
`getLibraryNames(lib)` are as long after the call as before. The one-entry list `a` is still
`a` after `a` is removed from it. -/
theorem remove_keeps_length (leftover : String → String → String) (lib : String)
    (names : List String) (s : State σ) :
    (getSearchPaths (removeSearchPaths leftover names s)).length = (getSearchPaths s).length ∧
      ((getLibraryNames lib (removeLibraryNames leftover lib names s)).1).length
        = ((getLibraryNames lib s).1).length ∧
      getSearchPaths (removeSearchPaths leftover ["a"] (setSearchPaths ["a"] s)) = ["a"] ∧
      (getLibraryNames lib (removeLibraryNames leftover lib ["a"]
        (setLibraryNames lib ["a"] s))).1 = ["a"] := by
  refine ⟨?_, ?_, rfl, ?_⟩
  · simp only [getSearchPaths, removeSearchPaths, removeEach_length]
  · rw [getLibraryNames_removeLibraryNames, removeEach_length]
  · rw [getLibraryNames_removeLibraryNames]
    simp only [getLibraryNames, setLibraryNames, StdMap.index_set_self]
    rfl

/-! ## The account of the open modules -/

/-- The number of times a module is open adds up over the parts of a trace. -/
theorem openCount_append (h : Nat) (t u : List Call) :
    openCount h (t ++ u) = openCount h t + openCount h u := by
  simp [openCount, List.map_append, List.sum_append]

/-- One native open adds one to the count of the handle it returns. -/
theorem World.openLibrary_openCount (P : Platform) (L : Loader σ) (w : World σ)
    (path : String) (h : Nat) :
    openCount h (w.openLibrary P L path).2.trace
      = openCount h w.trace + (if (w.openLibrary P L path).1 = h then 1 else 0) := by
  cases P <;>
    simp [World.openLibrary, World.LoadLibrary, World.dlopen, openCount, Call.openDelta,
      List.sum_append]

/-- Reading the error text opens and closes nothing. -/
theorem World.lastErrorText_openCount (P : Platform) (L : Loader σ) (w : World σ) (h : Nat) :
    openCount h (w.lastErrorText P L).2.trace = openCount h w.trace := by
  cases P <;>
    simp [World.lastErrorText, World.dlerror, World.GetLastError, World.GetLastErrorString,
      openCount, Call.openDelta, List.sum_append]

/-- What one `DllObject::load` adds to the number of times a module is open: one for the
native handle it returns with, nothing when it fails. -/
theorem DllObject.load_openCount (P : Platform) (L : Loader σ) (d : DllObject) (w : World σ)
    (h : Nat) (hh : h ≠ 0) :
    openCount h (d.load P L w).2.2.trace
      = openCount h w.trace
        + (if (d.load P L w).1 = true ∧ (d.load P L w).2.1.handle = h then 1 else 0) := by
  have hh' : ¬ 0 = h := fun e => hh e.symm
  rw [DllObject.load_eq]
  by_cases h1 : (World.openLibrary P L w d.file).1 = 0
  · by_cases hp : (kDllPrefix P).data <+: d.file.data
    · simp [h1, hp, World.lastErrorText_openCount, World.openLibrary_openCount, hh']
    · by_cases h2 : (World.openLibrary P L ((World.openLibrary P L w d.file).2.lastErrorText
          P L).2 (kDllPrefix P ++ d.file)).1 = 0
      · simp [h1, hp, h2, World.lastErrorText_openCount, World.openLibrary_openCount, hh']
      · simp [h1, hp, h2, World.lastErrorText_openCount, World.openLibrary_openCount, hh']
  · simp [h1, World.openLibrary_openCount]

/-- What the candidate loop of `load` adds to the number of times a module is open. -/
theorem loadLoop_openCount (P : Platform) (L : Loader σ) (h : Nat) (hh : h ≠ 0)
    (names : List String) :
    ∀ (dll : DllObject) (w : World σ) (r : Bool) (obj : DllObject) (w' : World σ),
      loadLoop P L names dll w = some (r, obj, w') →
      openCount h w'.trace
        = openCount h w.trace + (if r = true ∧ obj.handle = h then 1 else 0) := by
  induction names with
  | nil =>
    intro dll w r obj w' hl
    simp only [loadLoop, Option.some.injEq, Prod.mk.injEq] at hl
    obtain ⟨rfl, -, rfl⟩ := hl
    simp
  | cons name rest ih =>
    intro dll w r obj w' hl
    have hone := DllObject.load_openCount P L
      { dll with file := storedFileName P (c_str name) } w h hh
    simp only [loadLoop, DllObject.setFileName_eq] at hl
    cases hr : (DllObject.load P L { dll with file := storedFileName P (c_str name) } w).1 with
    | true =>
      simp only [hr, if_true, Option.some.injEq, Prod.mk.injEq] at hl
      obtain ⟨rfl, rfl, rfl⟩ := hl
      simpa [hr] using hone
    | false =>
      simp only [hr] at hl
      have := ih _ _ r obj w' (by simpa using hl)
      rw [this, hone]
      simp [hr]

/-- A key that `find` does not find is no key of the map. -/
theorem StdMap.not_mem_keys_of_find {V : Type} {k : String} {m : StdMap V}
    (h : StdMap.find m k = none) : k ∉ m.map Prod.fst := by
  induction m with
  | nil => simp
  | cons e m ih =>
    obtain ⟨k₀, v₀⟩ := e
    simp only [StdMap.find] at h
    split at h
    · simp at h
    · rename_i hne
      simp only [List.map_cons, List.mem_cons, not_or]
      exact ⟨fun e => hne e.symm, ih h⟩

/-- Inserting a new key adds one entry, up to the order. -/
theorem StdMap.set_perm {V : Type} {k : String} (v : V) {m : StdMap V}
    (h : StdMap.find m k = none) : (StdMap.set k v m).Perm ((k, v) :: m) := by
  induction m with
  | nil => simp [StdMap.set]
  | cons e m ih =>
    obtain ⟨k₀, v₀⟩ := e
    simp only [StdMap.find] at h
    split at h
    · simp at h
    · rename_i hne
      simp only [StdMap.set, hne, if_false]
      split
      · exact List.Perm.refl _
      · exact ((ih h).cons (k₀, v₀)).trans (List.Perm.swap _ _ _)

/-- Erasing a key of a map with distinct keys removes its one entry, up to the order. -/
theorem StdMap.erase_perm {V : Type} {k : String} {v : V} {m : StdMap V}
    (hnd : (m.map Prod.fst).Nodup) (h : StdMap.find m k = some v) :
    m.Perm ((k, v) :: StdMap.erase m k) := by
  induction m with
  | nil => simp [StdMap.find] at h
  | cons e m ih =>
    obtain ⟨k₀, v₀⟩ := e
    simp only [List.map_cons, List.nodup_cons] at hnd
    simp only [StdMap.find] at h
    split at h
    · rename_i heq
      simp only [Option.some.injEq] at h
      subst heq; subst h
      have hrest : List.filter (fun e : String × V => decide (e.1 ≠ k₀)) m = m := by
        rw [List.filter_eq_self]
        intro a ha
        have : a.1 ≠ k₀ := fun e => hnd.1 (List.mem_map.mpr ⟨a, ha, e⟩)
        simp [this]
      have herase : StdMap.erase ((k₀, v₀) :: m) k₀ = m := by
        simp only [StdMap.erase, List.filter_cons, ne_eq, not_true_eq_false, decide_False,
          Bool.false_eq_true, if_false]
        exact hrest
      rw [herase]
    · rename_i hne
      have := ih hnd.2 h
      simp only [StdMap.erase, List.filter_cons, hne, ne_eq, not_false_eq_true, decide_True,
        if_true]
      exact (this.cons (k₀, v₀)).trans (List.Perm.swap _ _ _)

/-- The function `load` keeps the account of the open modules. -/
theorem load_preserves_Accounted (P : Platform) (L : Loader σ) (dllname : String)
    (s s' : State σ) (r : Bool) (hwf : s.WF) (hacc : s.Accounted)
    (h : load P L dllname s = some (r, s')) : s'.Accounted := by
  by_cases hlib : library dllname s = 0
  · obtain ⟨r₀, obj, w', evs, hl, -⟩ :=
      loadLoop_opens P L (candidateNames dllname s) DllObject.new s.world
    rw [load_of_loop P L dllname s hlib hl] at h
    simp only [Option.some.injEq, Prod.mk.injEq] at h
    obtain ⟨rfl, rfl⟩ := h
    have hcount := fun h hh => loadLoop_openCount P L h hh _ _ _ _ _ _ hl
    cases r₀ with
    | false =>
      refine ⟨hacc.1, fun h hh => ?_⟩
      have := hcount h hh
      simp only [Bool.false_eq_true, false_and, if_false, add_zero] at this
      simpa [entriesWithHandle, this] using hacc.2 h hh
    | true =>
      have hfind : StdMap.find s.sDllMap dllname = none := by
        cases hf : StdMap.find s.sDllMap dllname with
        | none => rfl
        | some p =>
          have hp0 : p = 0 := by simpa [library, hf] using hlib
          exact absurd hp0 (hwf.2 _ (StdMap.mem_of_find hf)).1
      have hperm := StdMap.set_perm (Heap.fresh s.heap) hfind
      refine ⟨?_, fun h hh => ?_⟩
      · have := (hperm.map Prod.fst).nodup_iff
        simp only [if_true]
        rw [this, List.map_cons, List.nodup_cons]
        exact ⟨StdMap.not_mem_keys_of_find hfind, hacc.1⟩
      · have hc := hcount h hh
        simp only [true_and] at hc
        simp only [if_true, entriesWithHandle]
        rw [hperm.countP_eq, List.countP_cons, hc, ← hacc.2 h hh]
        have hold : List.countP (fun e => decide (Option.map DllObject.handle
            (Heap.get ((Heap.fresh s.heap, obj) :: s.heap) e.2) = some h)) s.sDllMap
            = entriesWithHandle h s := by
          simp only [entriesWithHandle]
          apply List.countP_congr
          intro e he
          have hne : Heap.fresh s.heap ≠ e.2 := by
            intro heq
            have := (hwf.2 e he).2
            rw [← heq, Heap.get_fresh] at this
            simp at this
          simp [Heap.get, hne]
        rw [hold]
        by_cases ho : obj.handle = h
        · simp [Heap.get, ho]
        · simp [Heap.get, ho]
  · rw [load_of_loaded P L dllname s hlib] at h
    simp only [Option.some.injEq, Prod.mk.injEq] at h
    obtain ⟨-, rfl⟩ := h
    exact hacc

/-- Outside `Q_OS_WIN` the function `unload` keeps the account of the open modules. -/
theorem unload_preserves_Accounted (P : Platform) (hP : P ≠ Platform.Q_OS_WIN) (L : Loader σ)
    (dllname : String) (s s' : State σ) (r : Bool) (hwf : s.WF) (hop : s.AllOpen)
    (hacc : s.Accounted) (h : unload P L dllname s = some (r, s')) : s'.Accounted := by
  cases hf : StdMap.find s.sDllMap dllname with
  | none =>
    simp [unload, library, hf] at h
    obtain ⟨-, rfl⟩ := h
    exact hacc
  | some p =>
    have hp : library dllname s = p := by simp [library, hf]
    have hmem := StdMap.mem_of_find hf
    have hp0 : p ≠ 0 := (hwf.2 _ hmem).1
    obtain ⟨obj, hg, hobj⟩ := hop _ hmem
    have hg' : Heap.get s.heap p = some obj := hg
    have hcl := DllObject.unload_by_dlclose P hP L obj s.world hobj
    have hfi := StdMap.find_if_value hwf.1 hmem
    by_cases hrc : (L.dlclose s.world.st obj.handle).1 = 0
    · have hu := hcl.1 hrc
      simp [unload, hp, hp0, hg', hu, hfi] at h
      obtain ⟨-, rfl⟩ := h
      have hperm := StdMap.erase_perm hacc.1 hf
      refine ⟨(hacc.1).sublist ((List.filter_sublist _).map _), fun h hh => ?_⟩
      have hold := hacc.2 h hh
      simp only [entriesWithHandle] at hold ⊢
      rw [hperm.countP_eq, List.countP_cons] at hold
      have hrest : List.countP (fun e => decide (Option.map DllObject.handle
          (Heap.get (Heap.free s.heap p) e.2) = some h)) (StdMap.erase s.sDllMap dllname)
          = List.countP (fun e => decide (Option.map DllObject.handle
          (Heap.get s.heap e.2) = some h)) (StdMap.erase s.sDllMap dllname) := by
        apply List.countP_congr
        intro e he
        have he' : e ∈ s.sDllMap ∧ e.1 ≠ dllname := by
          simpa [StdMap.erase] using he
        have hne : e.2 ≠ p := by
          intro heq
          have hinj := List.inj_on_of_nodup_map hwf.1 he'.1 hmem heq
          exact he'.2 (congrArg Prod.fst hinj)
        rw [Heap.get_free_ne _ hne]
      rw [hrest, openCount_append]
      by_cases ho : obj.handle = h
      · subst ho
        have hd : openCount obj.handle
            [Call.dlclose obj.handle (L.dlclose s.world.st obj.handle).1] = -1 := by
          simp [openCount, Call.openDelta, hrc]
        have hone : (if decide (Option.map DllObject.handle (Heap.get s.heap (dllname, p).2)
            = some obj.handle) = true then 1 else 0) = 1 := by
          simp [hg']
        rw [hone] at hold
        push_cast at hold
        rw [hd]
        omega
      · have hd : openCount h [Call.dlclose obj.handle (L.dlclose s.world.st obj.handle).1]
            = 0 := by
          simp [openCount, Call.openDelta, ho]
        have hzero : (if decide (Option.map DllObject.handle (Heap.get s.heap (dllname, p).2)
            = some h) = true then 1 else 0) = 0 := by
          simp [hg', ho]
        rw [hzero] at hold
        push_cast at hold
        rw [hd]
        omega
    · have hu := hcl.2 hrc
      simp [unload, hp, hp0, hg', hu] at h
      obtain ⟨-, rfl⟩ := h
      refine ⟨hacc.1, fun h hh => ?_⟩
      have hold := hacc.2 h hh
      simp only [entriesWithHandle] at hold ⊢
      have hsame : List.countP (fun e => decide (Option.map DllObject.handle
          (Heap.get (Heap.put p { obj with error := (L.dlerror
            (L.dlclose s.world.st obj.handle).2).1 } s.heap) e.2) = some h)) s.sDllMap
          = List.countP (fun e => decide (Option.map DllObject.handle
          (Heap.get s.heap e.2) = some h)) s.sDllMap := by
        apply List.countP_congr
        intro e _
        by_cases hep : e.2 = p
        · rw [hep, Heap.get_put_self _ hg', hg']
          simp
        · rw [Heap.get_put_ne _ _ hep]
      have hd : openCount h [Call.dlclose obj.handle (L.dlclose s.world.st obj.handle).1,
          Call.dlerror (L.dlerror (L.dlclose s.world.st obj.handle).2).1] = 0 := by
        simp [openCount, Call.openDelta, hrc]
      rw [hsame, openCount_append, hold, hd, add_zero]

/-- The function `testLoad` keeps the account of the open modules. -/
theorem testLoad_preserves_Accounted (P : Platform) (L : Loader σ) (dllname : String)
    (s s' : State σ) (r : Bool) (hwf : s.WF) (hacc : s.Accounted)
    (h : testLoad P L dllname s = some (r, s')) : s'.Accounted := by
  unfold testLoad at h
  split at h
  · simp only [Option.some.injEq, Prod.mk.injEq] at h
    obtain ⟨-, rfl⟩ := h
    exact hacc
  · exact load_preserves_Accounted P L dllname s s' r hwf hacc h

/-- A state reached from a start without native calls is reached from an empty `sDllMap`. -/
theorem StartReachable.loadReachable {P : Platform} {L : Loader σ} {s : State σ}
    (h : StartReachable P L s) : LoadReachable P L s := by
  induction h with
  | start s h0 _ => exact LoadReachable.start s h0
  | load dllname r _ hl ih => exact LoadReachable.load dllname r ih hl
  | testLoad dllname r _ hl ih => exact LoadReachable.testLoad dllname r ih hl
  | unload dllname r _ hl ih => exact LoadReachable.unload dllname r ih hl
  | configure dirs names _ ih => exact LoadReachable.configure dirs names ih

/-- Outside `Q_OS_WIN` every state reached from a start without native calls keeps the account
of the open modules. -/
theorem StartReachable.accounted {P : Platform} (hP : P ≠ Platform.Q_OS_WIN) {L : Loader σ}
    {s : State σ} (h : StartReachable P L s) : s.Accounted := by
  induction h with
  | start s h0 ht => simp [State.Accounted, entriesWithHandle, openCount, h0, ht]
  | load dllname r hs hl ih =>
    exact load_preserves_Accounted P L dllname _ _ r hs.loadReachable.invariants.1 ih hl
  | testLoad dllname r hs hl ih =>
    exact testLoad_preserves_Accounted P L dllname _ _ r hs.loadReachable.invariants.1 ih hl
  | unload dllname r hs hl ih =>
    exact unload_preserves_Accounted P hP L dllname _ _ r hs.loadReachable.invariants.1
      hs.loadReachable.invariants.2 ih hl
  | configure dirs names _ ih => exact ih

/-- Outside `Q_OS_WIN`, in every state reached from a start with an empty `sDllMap` and no
native call made, by calls of `load`, `testLoad` and `unload`: for every native handle, the
entries of `sDllMap` whose handle object holds it are as many as the times its module is open;
so `library(dllname)`, when it is non-null, is a handle object whose module is currently
open. -/
theorem libraries_open_outside_windows (P : Platform) (hP : P ≠ Platform.Q_OS_WIN)
    (L : Loader σ) (s : State σ) (h : StartReachable P L s) :
    (∀ hd, hd ≠ 0 → (entriesWithHandle hd s : Int) = openCount hd s.world.trace) ∧
      ∀ dllname, library dllname s ≠ 0 →
        ∃ obj, Heap.get s.heap (library dllname s) = some obj ∧ obj.handle ≠ 0 ∧
          0 < openCount obj.handle s.world.trace := by
  have hacc := h.accounted hP
  obtain ⟨-, hop⟩ := h.loadReachable.invariants
  refine ⟨hacc.2, ?_⟩
  intro dllname hlib
  cases hf : StdMap.find s.sDllMap dllname with
  | none => simp [library, hf] at hlib
  | some p =>
    have hp : library dllname s = p := by simp [library, hf]
    have hmem := StdMap.mem_of_find hf
    obtain ⟨obj, hg, hobj⟩ := hop _ hmem
    rw [hp]
    refine ⟨obj, hg, hobj, ?_⟩
    rw [← hacc.2 obj.handle hobj]
    have : 0 < entriesWithHandle obj.handle s := by
      simp only [entriesWithHandle]
      rw [List.countP_pos_iff]
      exact ⟨_, hmem, by simp [hg]⟩
    exact_mod_cast this

theorem libraries_open_outside_windows_witness :
    StartReachable Platform.Q_OS_OTHER busyLoader sampleBusyState ∧
      openCount 7 sampleBusyState.world.trace = 1 ∧
      entriesWithHandle 7 sampleBusyState = 1 ∧
      ∃ obj, Heap.get sampleBusyState.heap (library "foo" sampleBusyState) = some obj ∧
        obj.handle ≠ 0 ∧ 0 < openCount obj.handle sampleBusyState.world.trace := by
  have hr : StartReachable Platform.Q_OS_OTHER busyLoader sampleBusyState :=
    StartReachable.unload "foo" false
      (StartReachable.load "foo" true (StartReachable.start (State.init 0) rfl rfl)
        (rfl : load Platform.Q_OS_OTHER busyLoader "foo" (State.init 0)
          = some (true, sampleLoadedState)))
      (rfl : unload Platform.Q_OS_OTHER busyLoader "foo" sampleLoadedState
        = some (false, sampleBusyState))
  exact ⟨hr, by decide, by decide,
    (libraries_open_outside_windows Platform.Q_OS_OTHER (by decide) busyLoader sampleBusyState
      hr).2 "foo" (by decide)⟩

/-- In every state reached from an empty `sDllMap` by calls of `load`, `testLoad` and `unload`,
with any loader and any library names, whatever the calls return, every pointer in `sDllMap`
is non-null and points to a handle object with a non-null native handle; a failed `load` or a
failed `unload` leaves no entry with a null native handle. This holds in all three
configurations. -/
theorem registry_handles_non_null (P : Platform) (L : Loader σ) (s : State σ)
    (h : LoadReachable P L s) :
    (∀ e ∈ s.sDllMap, e.2 ≠ 0 ∧ ∃ obj, Heap.get s.heap e.2 = some obj ∧ obj.handle ≠ 0) ∧
      ∀ dllname, library dllname s ≠ 0 →
        ∃ obj, Heap.get s.heap (library dllname s) = some obj ∧ obj.handle ≠ 0 := by
  obtain ⟨hwf, hop⟩ := h.invariants
  refine ⟨fun e he => ⟨(hwf.2 e he).1, hop e he⟩, ?_⟩
  intro dllname hlib
  cases hf : StdMap.find s.sDllMap dllname with
  | none => simp [library, hf] at hlib
  | some p =>
    have hp : library dllname s = p := by simp [library, hf]
    rw [hp]
    exact hop _ (StdMap.mem_of_find hf)

/-- The invariant on the sample platform: `load("foo")` from program start, then an
`unload("foo")` that fails. -/
theorem registry_handles_non_null_witness :
    LoadReachable Platform.Q_OS_OTHER busyLoader sampleBusyState ∧
      library "foo" sampleBusyState ≠ 0 ∧
      ∃ obj, Heap.get sampleBusyState.heap (library "foo" sampleBusyState) = some obj ∧
        obj.handle ≠ 0 :=
  have hr : LoadReachable Platform.Q_OS_OTHER busyLoader sampleBusyState :=
    LoadReachable.unload "foo" false
      (LoadReachable.load "foo" true (LoadReachable.start (State.init 0) rfl)
        (rfl : load Platform.Q_OS_OTHER busyLoader "foo" (State.init 0)
          = some (true, sampleLoadedState)))
      (rfl : unload Platform.Q_OS_OTHER busyLoader "foo" sampleLoadedState
        = some (false, sampleBusyState))
  ⟨hr, by decide,
    (registry_handles_non_null Platform.Q_OS_OTHER busyLoader sampleBusyState hr).2 "foo"
      (by decide)⟩

/-- C20, evaluated on the code under `Q_OS_WIN`. `load("media")` opens `foo.dll` with the
native handle `9` after `nope.dll` has failed, which leaves the last error `126`. In the
`unload("media")` that follows, `FreeLibrary(9)` releases the module, `GetLastError()` still
answers `126`, and `unload` returns false and keeps the entry: `library("media")` is non-null
and its handle object holds the native handle `9`, while the module with the handle `9` is
open zero times. -/
theorem unload_keeps_released_library :
    sampleAliasState.sDllMap = [] ∧
      load Platform.Q_OS_WIN staleErrorLoader "media" sampleAliasState
        = some (true, sampleWinLoadedState) ∧
      unload Platform.Q_OS_WIN staleErrorLoader "media" sampleWinLoadedState
        = some (false, sampleWinStaleState) ∧
      LoadReachable Platform.Q_OS_WIN staleErrorLoader sampleWinStaleState ∧
      library "media" sampleWinStaleState = 1 ∧
      Heap.get sampleWinStaleState.heap 1
        = some ⟨"foo.dll", 9, "The specified module could not be found."⟩ ∧
      Call.FreeLibrary 9 true ∈ sampleWinStaleState.world.trace ∧
      openCount 9 sampleWinLoadedState.world.trace = 1 ∧
      openCount 9 sampleWinStaleState.world.trace = 0 :=
  ⟨rfl, rfl, rfl,
    LoadReachable.unload "media" false
      (LoadReachable.load "media" true (LoadReachable.start sampleAliasState rfl)
        (rfl : load Platform.Q_OS_WIN staleErrorLoader "media" sampleAliasState
          = some (true, sampleWinLoadedState)))
      (rfl : unload Platform.Q_OS_WIN staleErrorLoader "media" sampleWinLoadedState
        = some (false, sampleWinStaleState)),
    rfl, rfl, by decide, by decide, by decide⟩

end dllapi
